import Mathlib

/-!
# mpxgen: the control-pipe command parser and the streaming pipeline

A shallow embedding of `src/control_pipe.c` and `src/mpx_gen.c`.

Bytes are natural numbers (`0 .. 255`), C strings are byte lists without their
NUL terminator, and the static line buffer is a byte list.  Every access to the
line buffer goes through `rd` / `wr`, which fail (`none`) outside the buffer, so
a result `some _` of a function below means that the C code ran without leaving
the buffer.  The width in bits of `unsigned long` is the parameter `w`
(64 on LP64 targets, 32 on ILP32 ones); `unsigned int` has 32 bits and
`uint16_t` has 16.
-/

namespace Mpxgen

/-! ## Line buffer primitives -/

/-- The size `CTL_BUFFER_SIZE` of the static line buffer. -/
def CTL_BUFFER_SIZE : Nat := 100

/-- Read `buf[i]`; `none` when `i` is outside the buffer. -/
def rd (buf : List Nat) (i : Nat) : Option Nat := buf[i]?

/-- Write `buf[i] = v`; `none` when `i` is outside the buffer. -/
def wr (buf : List Nat) (i v : Nat) : Option (List Nat) :=
  if i < buf.length then some (buf.set i v) else none

/-- Number of bytes before the first NUL; `none` when no NUL is found (the scan
leaves the object). -/
def strlenL : List Nat → Option Nat
  | [] => none
  | c :: cs => if c = 0 then some 0 else (strlenL cs).map (fun n => n + 1)

/-- The value `strlen(buf + off)`. -/
def strlen (buf : List Nat) (off : Nat) : Option Nat := strlenL (buf.drop off)

/-- The bytes before the first NUL; `none` when no NUL is found. -/
def cstrL : List Nat → Option (List Nat)
  | [] => none
  | c :: cs => if c = 0 then some [] else (cstrL cs).map (fun r => c :: r)

/-- The C string a callee reads at `buf + off`. -/
def cstr (buf : List Nat) (off : Nat) : Option (List Nat) := cstrL (buf.drop off)

/-! ## fgets on the control channel -/

/-- The bytes one `fgets` call takes from the pending input: at most `n` of
them, stopping after the first newline. -/
def fgets_take : Nat → List Nat → List Nat
  | 0, _ => []
  | _ + 1, [] => []
  | n + 1, c :: cs => if c = 10 then [c] else c :: fgets_take n cs

/-- The call `fgets(buf, size, f_ctl)` on the pending input `stream`: `none` is
the NULL result (nothing could be read; the buffer is left alone), otherwise the
new buffer contents (the bytes read, a NUL, and the old bytes behind it) and the
input still pending. -/
def fgets (buf : List Nat) (size : Nat) (stream : List Nat) :
    Option (List Nat × List Nat) :=
  let line := fgets_take (size - 1) stream
  if line.length = 0 then none
  else some (line ++ 0 :: buf.drop (line.length + 1), stream.drop line.length)

/-! ## strtoul and sscanf -/

/-- The C predicate `isspace` in the "C" locale. -/
def isspace (c : Nat) : Bool := c = 32 || (9 ≤ c && c ≤ 13)

/-- Value of a byte as a digit of the given base, if it is one. -/
def digit_val (base c : Nat) : Option Nat :=
  if 48 ≤ c ∧ c ≤ 57 then (if c - 48 < base then some (c - 48) else none)
  else if 97 ≤ c ∧ c ≤ 122 then (if c - 87 < base then some (c - 87) else none)
  else if 65 ≤ c ∧ c ≤ 90 then (if c - 55 < base then some (c - 55) else none)
  else none

/-- Drop leading white space. -/
def skip_space : List Nat → List Nat
  | [] => []
  | c :: cs => if isspace c then skip_space cs else c :: cs

/-- Accumulate the longest run of digits; returns the value and what follows. -/
def scan_digits (base : Nat) : List Nat → Nat → Nat × List Nat
  | [], acc => (acc, [])
  | c :: cs, acc =>
    match digit_val base c with
    | some d => scan_digits base cs (acc * base + d)
    | none => (acc, c :: cs)

/-- An optional sign: whether it is a minus, and what follows it. -/
def scan_sign : List Nat → Bool × List Nat
  | [] => (false, [])
  | c :: cs => if c = 45 then (true, cs) else if c = 43 then (false, cs) else (false, c :: cs)

/-- The optional `0x` / `0X` prefix of base 16, taken only in front of a
hexadecimal digit. -/
def scan_0x (base : Nat) (s : List Nat) : List Nat :=
  if base = 16 then
    match s with
    | z :: x :: h :: r =>
      if z = 48 ∧ (x = 120 ∨ x = 88) ∧ (digit_val 16 h).isSome then h :: r else s
    | _ => s
  else s

/-- The conversion `strtoul` performs on a C string: white space, sign, prefix,
digits.  Returns the `unsigned long` value (`ULONG_MAX` on overflow, negated
modulo `2^w` after a minus sign) and the unread rest; `none` when the string
does not start with a number. -/
def scan_ul (w base : Nat) (s : List Nat) : Option (Nat × List Nat) :=
  let sg := scan_sign (skip_space s)
  let body := scan_0x base sg.2
  match body with
  | [] => none
  | c :: _ =>
    if (digit_val base c).isSome then
      let r := scan_digits base body 0
      let v := if 2 ^ w ≤ r.1 then 2 ^ w - 1
               else if sg.1 then (2 ^ w - r.1) % 2 ^ w else r.1
      some (v, r.2)
    else none

/-- The value `strtoul(s, NULL, base)`: 0 when no conversion is performed. -/
def strtoul (w base : Nat) (s : List Nat) : Nat :=
  match scan_ul w base s with
  | some (v, _) => v
  | none => 0

/-- One `%u` conversion of `sscanf`: the `strtoul` conversion in base 10, stored
into an `unsigned int`. -/
def scan_u (w : Nat) (s : List Nat) : Option (Nat × List Nat) :=
  match scan_ul w 10 s with
  | some (v, r) => some (v % 2 ^ 32, r)
  | none => none

/-- The call `sscanf(s, "%u,%u,...,%u", ...)` with `n` conversions: the values
stored, in order.  Its C result is the number of values stored (or EOF when
there is none), so the test `== n` is the test that the list has `n` entries. -/
def sscanf_u (w : Nat) : Nat → List Nat → List Nat
  | 0, _ => []
  | n + 1, s =>
    match scan_u w s with
    | none => []
    | some (v, rest) =>
      v :: (if n = 0 then []
            else match rest with
              | [] => []
              | c :: r => if c = 44 then sscanf_u w n r else [])

/-! ## The setters of the parameter store -/

/-- A call of one of the external parameter setters, with its arguments.
String arguments are the C string found at the pointer handed over. -/
inductive Call
  | set_rds_pi (pi : Nat)
  | set_rds_ps (ps : List Nat)
  | set_rds_rt (rt : List Nat)
  | set_rds_ta (ta : Bool)
  | set_rds_tp (tp : Bool)
  | set_rds_ms (ms : Bool)
  | set_rds_ab (ab : Bool)
  | set_rds_di (di : Nat)
  | set_rds_pty (pty : Nat)
  /-- The argument is the contents `tags[0..5]` of the `unsigned int` array whose
  address is handed over as a `uint8_t *`. -/
  | set_rds_rtplus_tags (tags : List Nat)
  | set_carrier_volume (i : Nat) (gain : Nat)
  /-- The argument is the `unsigned long` result of `strtoul`. -/
  | set_output_volume (vol : Nat)
  /-- The argument is the string handed to `strtof`, whose result is passed on. -/
  | set_output_ppm (arg : List Nat)
  | set_rds_rtplus_flags (running toggle : Nat)
  | set_rds_ptyn (ptyn : List Nat)
  deriving DecidableEq, Repr

/-! ## poll_control_pipe -/

/-- How a block of `poll_control_pipe` ends: with a `return`, or by falling
through to the next statement. -/
inductive Flow
  | returned (ret : Int) (calls : List Call) (buf : List Nat)
  | next (buf : List Nat)
  deriving DecidableEq, Repr

/-- The statement `if(arg[strlen(arg)-1] == '\n') arg[strlen(arg)-1] = 0;` with
`arg = res + off`.  On an empty argument the index `strlen(arg)-1` wraps around
and the access is outside the buffer. -/
def strip_newline (buf : List Nat) (off : Nat) : Option (List Nat) :=
  (strlen buf off).bind fun n =>
    if n = 0 then none
    else (rd buf (off + (n - 1))).bind fun c =>
      if c = 10 then
        (strlen buf off).bind fun m =>
          if m = 0 then none else wr buf (off + (m - 1)) 0
      else some buf

/-- The guard `strlen(res) > k && res[k-1] == ' '` (short-circuit). -/
def guard_block (buf : List Nat) (k : Nat) : Option Bool :=
  (strlen buf 0).bind fun n =>
    if n > k then (rd buf (k - 1)).bind fun c => some (decide (c = 32))
    else some false

/-- The test `res[0] == a && res[1] == b` (short-circuit). -/
def kw2 (buf : List Nat) (a b : Nat) : Option Bool :=
  (rd buf 0).bind fun r0 =>
    if r0 = a then (rd buf 1).bind fun r1 => some (decide (r1 = b))
    else some false

/-- The test `res[0] == a && res[1] == b && res[2] == c`. -/
def kw3 (buf : List Nat) (a b c : Nat) : Option Bool :=
  (kw2 buf a b).bind fun p =>
    if p then (rd buf 2).bind fun r2 => some (decide (r2 = c))
    else some false

/-- The test `res[0] == a && res[1] == b && res[2] == c && res[3] == d`. -/
def kw4 (buf : List Nat) (a b c d : Nat) : Option Bool :=
  (kw3 buf a b c).bind fun p =>
    if p then (rd buf 3).bind fun r3 => some (decide (r3 = d))
    else some false

/-- The test `arg[0] == 'O' && arg[1] == 'N'` with `arg = res + off`. -/
def arg_ON (buf : List Nat) (off : Nat) : Option Bool :=
  (rd buf off).bind fun a0 =>
    if a0 = 79 then (rd buf (off + 1)).bind fun a1 => some (decide (a1 = 78))
    else some false

/-- The test `arg[0] == 'O' && arg[1] == 'F' && arg[2] == 'F'`. -/
def arg_OFF (buf : List Nat) (off : Nat) : Option Bool :=
  (rd buf off).bind fun a0 =>
    if a0 = 79 then
      (rd buf (off + 1)).bind fun a1 =>
        if a1 = 70 then (rd buf (off + 2)).bind fun a2 => some (decide (a2 = 70))
        else some false
    else some false

/-- The two-letter commands (lines 65-133), with `arg = res + 3`. -/
def block2 (w : Nat) (buf0 : List Nat) : Option Flow :=
  (guard_block buf0 3).bind fun g =>
  if g then
    (strip_newline buf0 3).bind fun buf =>
    (kw2 buf 80 73).bind fun isPI =>
    if isPI then
      (wr buf (3 + 4) 0).bind fun b =>
      (cstr b 3).bind fun a =>
      some (Flow.returned 1 [Call.set_rds_pi (strtoul w 16 a % 2 ^ 16)] b)
    else
    (kw2 buf 80 83).bind fun isPS =>
    if isPS then
      (wr buf (3 + 8) 0).bind fun b =>
      (cstr b 3).bind fun a =>
      some (Flow.returned 1 [Call.set_rds_ps a] b)
    else
    (kw2 buf 82 84).bind fun isRT =>
    if isRT then
      (wr buf (3 + 64) 0).bind fun b =>
      (cstr b 3).bind fun a =>
      some (Flow.returned 1 [Call.set_rds_rt a] b)
    else
    (kw2 buf 84 65).bind fun isTA =>
    if isTA then
      (arg_ON buf 3).bind fun ta =>
      some (Flow.returned 1 [Call.set_rds_ta ta] buf)
    else
    (kw2 buf 84 80).bind fun isTP =>
    if isTP then
      (arg_ON buf 3).bind fun tp =>
      some (Flow.returned 1 [Call.set_rds_tp tp] buf)
    else
    (kw2 buf 77 83).bind fun isMS =>
    if isMS then
      (arg_ON buf 3).bind fun ms =>
      some (Flow.returned 1 [Call.set_rds_ms ms] buf)
    else
    (kw2 buf 65 66).bind fun isAB =>
    if isAB then
      (rd buf 3).bind fun a0 =>
      some (Flow.returned 1 [Call.set_rds_ab (decide (a0 = 65))] buf)
    else
    (kw2 buf 68 73).bind fun isDI =>
    if isDI then
      (cstr buf 3).bind fun a =>
      some (Flow.returned 1 [Call.set_rds_di (strtoul w 10 a % 2 ^ 32)] buf)
    else some (Flow.next buf)
  else some (Flow.next buf0)

/-- The three-letter commands (lines 135-187), with `arg = res + 4`. -/
def block3 (w : Nat) (buf0 : List Nat) : Option Flow :=
  (guard_block buf0 4).bind fun g =>
  if g then
    (strip_newline buf0 4).bind fun buf =>
    (kw3 buf 80 84 89).bind fun isPTY =>
    if isPTY then
      (cstr buf 4).bind fun a =>
      let pty := strtoul w 10 a % 2 ^ 32
      some (Flow.returned 1 (if pty ≤ 31 then [Call.set_rds_pty pty] else []) buf)
    else
    (kw3 buf 82 84 80).bind fun isRTP =>
    if isRTP then
      (cstr buf 4).bind fun a =>
      let tags := sscanf_u w 6 a
      some (Flow.returned 1
        (if tags.length = 6 then [Call.set_rds_rtplus_tags tags] else []) buf)
    else
    (kw3 buf 77 80 88).bind fun isMPX =>
    if isMPX then
      (cstr buf 4).bind fun a =>
      let gains := sscanf_u w 5 a
      some (Flow.returned 1
        (if gains.length = 5 then
          (List.range 5).map (fun i => Call.set_carrier_volume i (gains.getD i 0))
         else []) buf)
    else
    (kw3 buf 86 79 76).bind fun isVOL =>
    if isVOL then
      (cstr buf 4).bind fun a =>
      some (Flow.returned 1 [Call.set_output_volume (strtoul w 10 a)] buf)
    else
    (kw3 buf 80 80 77).bind fun isPPM =>
    if isPPM then
      (cstr buf 4).bind fun a =>
      some (Flow.returned 1 [Call.set_output_ppm a] buf)
    else some (Flow.next buf)
  else some (Flow.next buf0)

/-- The four-letter commands (lines 188-224), with `arg = res + 5`. -/
def block4 (w : Nat) (buf0 : List Nat) : Option Flow :=
  (guard_block buf0 5).bind fun g =>
  if g then
    (strip_newline buf0 5).bind fun buf =>
    (kw4 buf 82 84 80 70).bind fun isRTPF =>
    if isRTPF then
      (cstr buf 5).bind fun a =>
      let fl := sscanf_u w 2 a
      some (Flow.returned 1
        (if fl.length = 2 then
          [Call.set_rds_rtplus_flags (if fl.getD 0 0 > 1 then 0 else fl.getD 0 0)
            (if fl.getD 1 0 > 1 then 0 else fl.getD 1 0)]
         else []) buf)
    else
    (kw4 buf 80 84 89 78).bind fun isPTYN =>
    if isPTYN then
      (wr buf (5 + 8) 0).bind fun b =>
      (arg_OFF b 5).bind fun off =>
      if off then some (Flow.returned 1 [Call.set_rds_ptyn []] b)
      else (cstr b 5).bind fun a => some (Flow.returned 1 [Call.set_rds_ptyn a] b)
    else some (Flow.next buf)
  else some (Flow.next buf0)

/-- What one call of `poll_control_pipe` does. -/
structure Outcome where
  /-- The value returned. -/
  ret : Int
  /-- The setters called, in order. -/
  calls : List Call
  /-- The static line buffer afterwards. -/
  buf : List Nat
  /-- The input still pending on the control channel. -/
  f_ctl : List Nat
  deriving DecidableEq, Repr

/-- The body of `poll_control_pipe` after a successful `fgets` (lines 65-225),
run on the buffer contents. -/
def parse_line (w : Nat) (buf : List Nat) : Option Flow :=
  (block2 w buf).bind fun f2 =>
  match f2 with
  | Flow.returned r c b => some (Flow.returned r c b)
  | Flow.next b2 =>
    (block3 w b2).bind fun f3 =>
    match f3 with
    | Flow.returned r c b => some (Flow.returned r c b)
    | Flow.next b3 =>
      (block4 w b3).bind fun f4 =>
      match f4 with
      | Flow.returned r c b => some (Flow.returned r c b)
      | Flow.next b4 => some (Flow.returned (-1) [] b4)

/-- The function `poll_control_pipe`, on the static buffer `buf` and the input
pending on `f_ctl`.  `none` stands for an access outside the line buffer. -/
def poll_control_pipe (w : Nat) (buf : List Nat) (f_ctl : List Nat) : Option Outcome :=
  match fgets buf CTL_BUFFER_SIZE f_ctl with
  | none => some ⟨-1, [], buf, f_ctl⟩
  | some (b, rest) =>
    match parse_line w b with
    | some (Flow.returned r c b1) => some ⟨r, c, b1, rest⟩
    | some (Flow.next b1) => some ⟨-1, [], b1, rest⟩
    | none => none

/-- ASCII bytes of a string literal. -/
def bytes (s : String) : List Nat := s.toList.map Char.toNat

/-- A buffer of `CTL_BUFFER_SIZE` bytes, all equal to `c`. -/
def fill (c : Nat) : List Nat := List.replicate CTL_BUFFER_SIZE c

/-! ## mpx_gen.c: float2char -/

/-- The byte `sample & 255` stored in a `char`, read as an unsigned byte. -/
def lo_byte (sample : Int) : Nat := (sample % 256).toNat

/-- The byte `sample >> 8` (arithmetic shift) stored in a `char`, read as an
unsigned byte. -/
def hi_byte (sample : Int) : Nat := ((sample / 256) % 256).toNat

/-- The loop of `float2char`: `k` iterations are left, `i` and `j` are the loop
variables.  `conv x` is the `short` the assignment `sample = inbuf[i] * 32767`
yields for the float `x`.  A write outside `outbuf` or a read outside `inbuf`
gives `none`. -/
def float2char_loop {F : Type} (conv : F → Int) (inbuf : List F) (channels : Nat) :
    Nat → Nat → Nat → List Nat → Option (List Nat)
  | 0, _, _, out => some out
  | k + 1, i, j, out =>
    (inbuf[i]?).bind fun x =>
    (wr out (j + 0) (lo_byte (conv x))).bind fun o1 =>
    (wr o1 (j + 1) (hi_byte (conv x))).bind fun o2 =>
    if channels = 2 then
      (rd o2 (j + 0)).bind fun a =>
      (wr o2 (j + 2) a).bind fun o3 =>
      (rd o3 (j + 1)).bind fun b =>
      (wr o3 (j + 3) b).bind fun o4 =>
      float2char_loop conv inbuf channels k (i + 1) (j + 2 + 2) o4
    else float2char_loop conv inbuf channels k (i + 1) (j + 2) o2

/-- The function `float2char(inbuf, outbuf, inbufsize, channels)`: the contents
of `outbuf` afterwards. -/
def float2char {F : Type} (conv : F → Int) (inbuf : List F) (outbuf : List Nat)
    (inbufsize channels : Nat) : Option (List Nat) :=
  float2char_loop conv inbuf channels inbufsize 0 0 outbuf

/-! ## mpx_gen.c: generate_mpx -/

/-- The resample ratio `(192000 / 228000.0) + (ppm / 1000000)` configured by
`generate_mpx`, over the rationals. -/
def src_ratio (ppm : ℚ) : ℚ := 192000 / 228000 + ppm / 1000000

/-- The calls by which `generate_mpx` acquires, uses and releases its resources
(`signal`, `ao_initialize`, `set_output_volume` and `set_rds_switch`, whose
results the code does not look at, are left out). -/
inductive Ev
  | ao_open_file
  | ao_open_live
  | src_new
  | fm_mpx_open
  | init_rds_encoder
  | open_control_pipe
  | poll_control_pipe
  | fm_mpx_get_samples
  | src_process
  | float2char (frames channels : Nat)
  | ao_play (num_bytes : Nat)
  /-- The call `close_control_pipe()`; the flag tells whether it runs
  `fclose(f_ctl)`, which it does when `f_ctl` is not NULL. -/
  | close_control_pipe (fclose : Bool)
  | fm_mpx_close
  | ao_close
  | ao_shutdown
  | src_delete
  deriving DecidableEq, Repr

/-- What the environment answers during start-up. -/
structure Setup where
  /-- Whether `output_file != NULL`. -/
  output_file : Bool
  /-- Whether `output_file` is the one-character name for standard output
  (the `strcmp` test). -/
  to_stdout : Bool
  /-- Whether `isatty(fileno(stdout))` holds. -/
  stdout_tty : Bool
  /-- Whether `ao_open_file` resp. `ao_open_live` returned a device. -/
  sink_ok : Bool
  /-- Whether `src_new` returned a converter. -/
  src_ok : Bool
  /-- Whether `fm_mpx_open` returned a value `>= 0`. -/
  mpx_ok : Bool
  /-- Whether `init_rds_encoder` returned a value `>= 0`. -/
  rds_ok : Bool
  /-- Whether `control_pipe != NULL`. -/
  control_pipe : Bool
  /-- Whether `open` in `open_control_pipe` returned a descriptor. -/
  ctl_open : Bool
  /-- Whether `fcntl(fd, F_SETFL, flags)` succeeded. -/
  ctl_fcntl : Bool
  /-- Whether `fdopen` returned a stream. -/
  ctl_fdopen : Bool

/-- The function `open_control_pipe`: its result and whether `f_ctl` is a stream
afterwards (`f_ctl` is NULL before). -/
def open_control_pipe (open_ok fcntl_ok fdopen_ok : Bool) : Int × Bool :=
  if !open_ok then (-1, false)
  else if !fcntl_ok then (-1, false)
  else if !fdopen_ok then (-1, false)
  else (0, true)

/-- What the environment answers during one iteration of the streaming loop. -/
structure Iter where
  /-- The result of `fm_mpx_get_samples`. -/
  input_frames : Int
  /-- Whether `src_process` reported an error. -/
  src_error : Bool
  /-- The number of frames `src_process` produced. -/
  output_frames_gen : Nat
  /-- Whether `ao_play` returned non-zero. -/
  played : Bool
  /-- The flag `stop_mpx` at the end of the iteration. -/
  stop_mpx : Bool

/-- One iteration of the loop `for (;;)` of `generate_mpx`: the calls made and
whether the loop goes on. -/
def mpx_iteration (control_pipe : Bool) (channels : Nat) (it : Iter) : List Ev × Bool :=
  let poll := if control_pipe then [Ev.poll_control_pipe] else []
  if it.input_frames < 0 then (poll ++ [Ev.fm_mpx_get_samples], false)
  else if it.src_error then (poll ++ [Ev.fm_mpx_get_samples, Ev.src_process], false)
  else
    let block := poll ++ [Ev.fm_mpx_get_samples, Ev.src_process,
      Ev.float2char it.output_frames_gen channels,
      Ev.ao_play (it.output_frames_gen * channels * 2)]
    if !it.played then (block, false)
    else if it.stop_mpx then (block, false)
    else (block, true)

/-- The streaming loop on the answers of the successive iterations: the calls
made until a `break`; `none` when the loop is still running after them. -/
def mpx_loop (control_pipe : Bool) (channels : Nat) : List Iter → Option (List Ev)
  | [] => none
  | it :: rest =>
    if (mpx_iteration control_pipe channels it).2 then
      (mpx_loop control_pipe channels rest).map
        (fun tr => (mpx_iteration control_pipe channels it).1 ++ tr)
    else some (mpx_iteration control_pipe channels it).1

/-- The calls that release the resources, after the loop. -/
def release (f_ctl : Bool) : List Ev :=
  [Ev.close_control_pipe f_ctl, Ev.fm_mpx_close, Ev.ao_close, Ev.ao_shutdown, Ev.src_delete]

/-- The function `generate_mpx`: the value returned and the calls made, in
order; `none` when the streaming loop is still running after the iterations
given. -/
def generate_mpx (su : Setup) (its : List Iter) : Option (Int × List Ev) :=
  let channels := if su.output_file then 1 else 2
  let opened := if su.output_file then Ev.ao_open_file else Ev.ao_open_live
  if su.output_file && su.to_stdout && su.stdout_tty then some (1, [])
  else if !su.sink_ok then some (1, [opened])
  else if !su.src_ok then some (1, [opened, Ev.src_new])
  else if !su.mpx_ok then some (1, [opened, Ev.src_new, Ev.fm_mpx_open])
  else if !su.rds_ok then
    some (1, [opened, Ev.src_new, Ev.fm_mpx_open, Ev.init_rds_encoder])
  else
    let ctl := if su.control_pipe
      then open_control_pipe su.ctl_open su.ctl_fcntl su.ctl_fdopen else (0, false)
    let control_pipe := su.control_pipe && decide (ctl.1 = 0)
    let start := [opened, Ev.src_new, Ev.fm_mpx_open, Ev.init_rds_encoder]
      ++ (if su.control_pipe then [Ev.open_control_pipe] else [])
    (mpx_loop control_pipe channels its).map (fun tr => (0, start ++ tr ++ release ctl.2))

/-- The calls that release a resource. -/
def Ev.is_release : Ev → Bool
  | Ev.close_control_pipe _ => true
  | Ev.fm_mpx_close => true
  | Ev.ao_close => true
  | Ev.ao_shutdown => true
  | Ev.src_delete => true
  | _ => false

/-! # Auxiliary definitions

Notions used to state and to prove the claims: the C string a buffer holds, the
parser read off the C string (`interp`, proved below to agree with
`poll_control_pipe`), the line a call takes from the pending input, the
keywords, decimal numerals, and the concrete inputs of the counterexamples. -/

/-- A byte list without NUL. -/
def NulFree (s : List Nat) : Prop := ∀ c ∈ s, c ≠ 0

/-- The buffer `b` (of `CTL_BUFFER_SIZE` bytes) holds the C string `s` at its
start: the bytes of `s`, a NUL, and anything behind it. -/
def Shape (b s : List Nat) : Prop :=
  NulFree s ∧ b.length = CTL_BUFFER_SIZE ∧ ∃ t, b = s ++ 0 :: t

/-- A C string without its trailing newline, if it has one. -/
def chomp : List Nat → List Nat
  | [] => []
  | [c] => if c = 10 then [] else [c]
  | c :: d :: r => c :: chomp (d :: r)

/-- The guard of a block, on the C string held by the buffer. -/
def sguard (s : List Nat) (k : Nat) : Bool :=
  decide (k < s.length) && decide (s.getD (k - 1) 0 = 32)

/-- The keyword test on the first two bytes. -/
def skw2 (s : List Nat) (a b : Nat) : Bool :=
  decide (s.getD 0 0 = a) && decide (s.getD 1 0 = b)

/-- The keyword test on the first three bytes. -/
def skw3 (s : List Nat) (a b c : Nat) : Bool :=
  skw2 s a b && decide (s.getD 2 0 = c)

/-- The keyword test on the first four bytes. -/
def skw4 (s : List Nat) (a b c d : Nat) : Bool :=
  skw3 s a b c && decide (s.getD 3 0 = d)

/-- The test for the prefix `ON` of the argument at offset `off`. -/
def sON (s : List Nat) (off : Nat) : Bool :=
  decide (s.getD off 0 = 79) && decide (s.getD (off + 1) 0 = 78)

/-- The test for the prefix `OFF` of the argument at offset `off`. -/
def sOFF (s : List Nat) (off : Nat) : Bool :=
  decide (s.getD off 0 = 79) && decide (s.getD (off + 1) 0 = 70)
    && decide (s.getD (off + 2) 0 = 70)

/-- The two-letter commands on the C string `s` (already stripped): the setter
calls made when a keyword matches. -/
def sblock2 (w : Nat) (s : List Nat) : Option (List Call) :=
  if skw2 s 80 73 then
    some [Call.set_rds_pi (strtoul w 16 ((s.take (3 + 4)).drop 3) % 2 ^ 16)]
  else if skw2 s 80 83 then some [Call.set_rds_ps ((s.take (3 + 8)).drop 3)]
  else if skw2 s 82 84 then some [Call.set_rds_rt ((s.take (3 + 64)).drop 3)]
  else if skw2 s 84 65 then some [Call.set_rds_ta (sON s 3)]
  else if skw2 s 84 80 then some [Call.set_rds_tp (sON s 3)]
  else if skw2 s 77 83 then some [Call.set_rds_ms (sON s 3)]
  else if skw2 s 65 66 then some [Call.set_rds_ab (decide (s.getD 3 0 = 65))]
  else if skw2 s 68 73 then some [Call.set_rds_di (strtoul w 10 (s.drop 3) % 2 ^ 32)]
  else none

/-- The three-letter commands on the C string `s` (already stripped). -/
def sblock3 (w : Nat) (s : List Nat) : Option (List Call) :=
  if skw3 s 80 84 89 then
    some (if strtoul w 10 (s.drop 4) % 2 ^ 32 ≤ 31
      then [Call.set_rds_pty (strtoul w 10 (s.drop 4) % 2 ^ 32)] else [])
  else if skw3 s 82 84 80 then
    some (if (sscanf_u w 6 (s.drop 4)).length = 6
      then [Call.set_rds_rtplus_tags (sscanf_u w 6 (s.drop 4))] else [])
  else if skw3 s 77 80 88 then
    some (if (sscanf_u w 5 (s.drop 4)).length = 5
      then (List.range 5).map
        (fun i => Call.set_carrier_volume i ((sscanf_u w 5 (s.drop 4)).getD i 0))
      else [])
  else if skw3 s 86 79 76 then some [Call.set_output_volume (strtoul w 10 (s.drop 4))]
  else if skw3 s 80 80 77 then some [Call.set_output_ppm (s.drop 4)]
  else none

/-- The four-letter commands on the C string `s` (already stripped). -/
def sblock4 (w : Nat) (s : List Nat) : Option (List Call) :=
  if skw4 s 82 84 80 70 then
    some (if (sscanf_u w 2 (s.drop 5)).length = 2 then
      [Call.set_rds_rtplus_flags
        (if (sscanf_u w 2 (s.drop 5)).getD 0 0 > 1 then 0 else (sscanf_u w 2 (s.drop 5)).getD 0 0)
        (if (sscanf_u w 2 (s.drop 5)).getD 1 0 > 1 then 0 else (sscanf_u w 2 (s.drop 5)).getD 1 0)]
      else [])
  else if skw4 s 80 84 89 78 then
    some (if sOFF (s.take (5 + 8)) 5 then [Call.set_rds_ptyn []]
      else [Call.set_rds_ptyn ((s.take (5 + 8)).drop 5)])
  else none

/-- What a block does on a buffer holding `s`, given what it does on the C
string: a return with these calls, or a fall-through on a buffer holding the
stripped string. -/
def BlockOk (r : Option Flow) (s' : List Nat) (c : Option (List Call)) : Prop :=
  match c with
  | some cs => ∃ b', r = some (Flow.returned 1 cs b') ∧ b'.length = CTL_BUFFER_SIZE
  | none => ∃ b', r = some (Flow.next b') ∧ Shape b' s'

/-- The C string after the strip of a block whose guard holds. -/
def sstrip (s : List Nat) (k : Nat) : List Nat := if sguard s k then chomp s else s

/-- What a block does on the C string: the calls of the matching command. -/
def sblock (blk : List Nat → Option (List Call)) (s : List Nat) (k : Nat) :
    Option (List Call) :=
  if sguard s k then blk (chomp s) else none

/-- The result and the setter calls of the command parser, as a function of the
C string `s` the buffer holds after `fgets`. -/
def interp (w : Nat) (s : List Nat) : Int × List Call :=
  match sblock (sblock2 w) s 3 with
  | some c => (1, c)
  | none =>
    match sblock (sblock3 w) (sstrip s 3) 4 with
    | some c => (1, c)
    | none =>
      match sblock (sblock4 w) (sstrip (sstrip s 3) 4) 5 with
      | some c => (1, c)
      | none => (-1, [])

/-- The bytes before the first NUL of a byte list (all of it when it has none). -/
def upto0 : List Nat → List Nat
  | [] => []
  | c :: cs => if c = 0 then [] else c :: upto0 cs

/-- The line one call takes from the pending input: at most
`CTL_BUFFER_SIZE - 1` bytes, up to and including the first newline. -/
def line_taken (stream : List Nat) : List Nat :=
  fgets_take (CTL_BUFFER_SIZE - 1) stream

/-- The C string `res` points to after `fgets` took a line from the pending
input: the line taken, up to its first NUL byte if it has one. -/
def line_read (stream : List Nat) : List Nat := upto0 (line_taken stream)

/-- The result of a call: the value returned and the setter calls made. -/
def Outcome.res (o : Outcome) : Int × List Call := (o.ret, o.calls)

/-- The fifteen keywords of the dispatch: PI, PS, RT, TA, TP, MS, AB, DI, PTY,
RTP, MPX, VOL, PPM, RTPF, PTYN. -/
def KEYWORDS : List (List Nat) :=
  [[80, 73], [80, 83], [82, 84], [84, 65], [84, 80], [77, 83], [65, 66], [68, 73],
   [80, 84, 89], [82, 84, 80], [77, 80, 88], [86, 79, 76], [80, 80, 77],
   [82, 84, 80, 70], [80, 84, 89, 78]]

/-- A line of the form keyword, space, and at least one more byte. -/
def IsCommand (s : List Nat) : Prop :=
  ∃ K ∈ KEYWORDS, ∃ c rest, s = K ++ 32 :: c :: rest

/-! ### The RT+ tag setter -/

/-- The four bytes of an `unsigned int` in memory, least significant first. -/
def bytes_le (v : Nat) : List Nat :=
  [v % 256, v / 256 % 256, v / 65536 % 256, v / 16777216 % 256]

/-- The four bytes of an `unsigned int` in memory, most significant first. -/
def bytes_be (v : Nat) : List Nat := (bytes_le v).reverse

/-- Modelled from the spec: the RT+ tag setter `set_rds_rtplus_tags(uint8_t *tags)`
of the RDS encoder, which is not under src/.  It is byte-oriented: it takes the
fields type, start, length of the first tag and of the second one from the bytes
`tags[0] .. tags[5]` of the buffer it is handed. -/
def set_rds_rtplus_tags (mem : List Nat) : (Nat × Nat × Nat) × (Nat × Nat × Nat) :=
  ((mem.getD 0 0, mem.getD 1 0, mem.getD 2 0), (mem.getD 3 0, mem.getD 4 0, mem.getD 5 0))

/-- The bytes one sample occupies in the output: once, or twice for two
channels. -/
def frame (channels : Nat) (sample : Int) : List Nat :=
  if channels = 2 then [lo_byte sample, hi_byte sample, lo_byte sample, hi_byte sample]
  else [lo_byte sample, hi_byte sample]

/-- Bytes per sample frame. -/
def frame_size (channels : Nat) : Nat := if channels = 2 then 4 else 2

/-- A line of 108 bytes before its newline: `RT `, 96 times `x`, `PS HACKED`. -/
def long_line : List Nat := bytes "RT " ++ List.replicate 96 120 ++ bytes "PS HACKED\n"

/-- A set-up in which everything succeeds except that the control channel, which
is configured, cannot be opened; the sink is the live device. -/
def setup_ctl_fails : Setup :=
  Setup.mk false false false true true true true true false true true

/-- Two iterations: a block of 512 samples resampled to 431 frames and played,
then end of input. -/
def two_iterations : List Iter :=
  [Iter.mk 512 false 431 true false, Iter.mk (-1) false 0 true false]

/-- The digits of `n`, most significant first, in front of `acc`; `fuel` bounds
the number of digits. -/
def dec_aux : Nat → Nat → List Nat → List Nat
  | 0, _, acc => acc
  | fuel + 1, n, acc =>
    if n < 10 then (n + 48) :: acc else dec_aux fuel (n / 10) ((n % 10 + 48) :: acc)

/-- The decimal numeral of `n` in ASCII. -/
def dec (n : Nat) : List Nat := dec_aux (n + 1) n []

/-- The value a run of decimal digit bytes adds to an accumulator. -/
def dec_val (acc : Nat) (l : List Nat) : Nat := l.foldl (fun a c => a * 10 + (c - 48)) acc

/-- Every byte is a decimal digit. -/
def AllDigits (l : List Nat) : Prop := ∀ c ∈ l, 48 ≤ c ∧ c ≤ 57

/-! # Lemmas and claims -/

/-! ## The C string in the buffer -/

theorem NulFree.tail {c : Nat} {s : List Nat} (h : NulFree (c :: s)) : NulFree s :=
  fun x hx => h x (List.mem_cons_of_mem _ hx)

theorem NulFree.head {c : Nat} {s : List Nat} (h : NulFree (c :: s)) : c ≠ 0 :=
  h c (List.mem_cons_self _ _)

theorem NulFree.drop {s : List Nat} (h : NulFree s) (n : Nat) : NulFree (s.drop n) :=
  fun x hx => h x (List.mem_of_mem_drop hx)

theorem NulFree.take {s : List Nat} (h : NulFree s) (n : Nat) : NulFree (s.take n) :=
  fun x hx => h x (List.mem_of_mem_take hx)

theorem strlenL_append (s t : List Nat) (h : NulFree s) :
    strlenL (s ++ 0 :: t) = some s.length := by
  induction s with
  | nil => simp [strlenL]
  | cons c s ih => simp [strlenL, h.head, ih h.tail]

theorem cstrL_append (s t : List Nat) (h : NulFree s) :
    cstrL (s ++ 0 :: t) = some s := by
  induction s with
  | nil => simp [cstrL]
  | cons c s ih => simp [cstrL, h.head, ih h.tail]

theorem Shape.length_lt {b s : List Nat} (h : Shape b s) : s.length < CTL_BUFFER_SIZE := by
  obtain ⟨_, hl, t, rfl⟩ := h
  simp at hl
  omega

theorem strlen_shape {b s : List Nat} (h : Shape b s) {off : Nat} (ho : off ≤ s.length) :
    strlen b off = some (s.length - off) := by
  obtain ⟨hn, _, t, rfl⟩ := h
  unfold strlen
  rw [List.drop_append_of_le_length ho, strlenL_append _ _ (hn.drop off)]
  simp

theorem cstr_shape {b s : List Nat} (h : Shape b s) {off : Nat} (ho : off ≤ s.length) :
    cstr b off = some (s.drop off) := by
  obtain ⟨hn, _, t, rfl⟩ := h
  unfold cstr
  rw [List.drop_append_of_le_length ho, cstrL_append _ _ (hn.drop off)]

theorem rd_shape {b s : List Nat} (h : Shape b s) {i : Nat} (hi : i ≤ s.length) :
    rd b i = some (s.getD i 0) := by
  obtain ⟨_, _, t, rfl⟩ := h
  unfold rd
  rcases Nat.lt_or_eq_of_le hi with hlt | heq
  · rw [List.getElem?_append_left hlt]
    simp [List.getD_eq_getElem?_getD, List.getElem?_eq_getElem hlt]
  · subst heq
    rw [List.getElem?_append_right (le_refl _)]
    simp [List.getD_eq_getElem?_getD]

theorem wr_shape {b s : List Nat} (h : Shape b s) {i : Nat} (hi : i < CTL_BUFFER_SIZE) :
    ∃ b', wr b i 0 = some b' ∧ Shape b' (s.take i) := by
  obtain ⟨hn, hl, t, rfl⟩ := h
  have hib : i < (s ++ 0 :: t).length := by rw [hl]; exact hi
  refine ⟨(s ++ 0 :: t).set i 0, by rw [wr, if_pos hib], hn.take i, by simpa using hl, ?_⟩
  rcases Nat.lt_or_ge i s.length with hlt | hge
  · refine ⟨s.drop (i + 1) ++ 0 :: t, ?_⟩
    rw [List.set_append_left _ _ hlt]
    rw [List.set_eq_take_append_cons_drop, if_pos hlt]
    simp
  · rw [List.take_of_length_le hge]
    rw [List.set_append_right _ _ hge]
    rcases Nat.eq_zero_or_pos (i - s.length) with h0 | hpos
    · exact ⟨t, by simp [h0]⟩
    · obtain ⟨k, hk⟩ := Nat.exists_eq_succ_of_ne_zero (Nat.pos_iff_ne_zero.mp hpos)
      exact ⟨t.set k 0, by simp [hk]⟩

theorem chomp_eq (s : List Nat) :
    chomp s = if s.getD (s.length - 1) 0 = 10 then s.take (s.length - 1) else s := by
  induction s with
  | nil => simp [chomp]
  | cons c s ih =>
    cases s with
    | nil => by_cases hc : c = 10 <;> simp [chomp, hc]
    | cons d r =>
      simp only [chomp, ih]
      by_cases hl : (d :: r).getD ((d :: r).length - 1) 0 = 10
      · have : (c :: d :: r).getD ((c :: d :: r).length - 1) 0 = 10 := by simpa using hl
        rw [if_pos hl, if_pos this]
        simp
      · have : ¬ (c :: d :: r).getD ((c :: d :: r).length - 1) 0 = 10 := by simpa using hl
        rw [if_neg hl, if_neg this]

theorem chomp_length_le (s : List Nat) : (chomp s).length ≤ s.length := by
  rw [chomp_eq]; split <;> simp

theorem chomp_length_ge (s : List Nat) : s.length - 1 ≤ (chomp s).length := by
  rw [chomp_eq]; split <;> simp

/-! ### The tests and the strip on a buffer that holds a C string -/

theorem getD_ne_zero_lt {s : List Nat} {i : Nat} (h : s.getD i 0 ≠ 0) : i < s.length := by
  by_contra hc
  exact h (by simp [List.getD_eq_getElem?_getD, List.getElem?_eq_none (Nat.le_of_not_lt hc)])

theorem guard_shape {b s : List Nat} (h : Shape b s) {k : Nat} :
    guard_block b k = some (sguard s k) := by
  unfold guard_block sguard
  rw [strlen_shape h (Nat.zero_le _)]
  by_cases hk : k < s.length
  · have : k - 1 ≤ s.length := by omega
    simp [hk, rd_shape h this]
  · simp [hk]

theorem strip_shape {b s : List Nat} (h : Shape b s) {off : Nat} (ho : off < s.length) :
    ∃ b', strip_newline b off = some b' ∧ Shape b' (chomp s) := by
  have hn : s.length - off ≠ 0 := by omega
  have hidx : off + (s.length - off - 1) = s.length - 1 := by omega
  have hlt := h.length_lt
  unfold strip_newline
  rw [strlen_shape h (Nat.le_of_lt ho)]
  simp only [Option.some_bind, if_neg hn, hidx]
  rw [rd_shape h (Nat.sub_le _ _), chomp_eq]
  simp only [Option.some_bind]
  by_cases hc : s.getD (s.length - 1) 0 = 10
  · obtain ⟨b', hw, hs⟩ := wr_shape h (i := s.length - 1) (by omega)
    exact ⟨b', by simp only [if_pos hc, hw], by simpa only [if_pos hc] using hs⟩
  · exact ⟨b, by simp only [if_neg hc], by simpa only [if_neg hc] using h⟩

theorem kw2_shape {b s : List Nat} (h : Shape b s) (hl : 1 ≤ s.length) (x y : Nat) :
    kw2 b x y = some (skw2 s x y) := by
  unfold kw2 skw2
  rw [rd_shape h (Nat.zero_le _)]
  by_cases h0 : s.getD 0 0 = x
  · simp [-List.getD_eq_getElem?_getD, h0, rd_shape h hl]
  · simp [-List.getD_eq_getElem?_getD, h0]

theorem kw3_shape {b s : List Nat} (h : Shape b s) (hl : 2 ≤ s.length) (x y z : Nat) :
    kw3 b x y z = some (skw3 s x y z) := by
  unfold kw3 skw3
  rw [kw2_shape h (by omega)]
  by_cases h0 : skw2 s x y = true
  · simp [h0, rd_shape h hl]
  · simp [h0]

theorem kw4_shape {b s : List Nat} (h : Shape b s) (hl : 3 ≤ s.length) (x y z u : Nat) :
    kw4 b x y z u = some (skw4 s x y z u) := by
  unfold kw4 skw4
  rw [kw3_shape h (by omega)]
  by_cases h0 : skw3 s x y z = true
  · simp [h0, rd_shape h hl]
  · simp [h0]

theorem arg_ON_shape {b s : List Nat} (h : Shape b s) {off : Nat} (ho : off ≤ s.length) :
    arg_ON b off = some (sON s off) := by
  unfold arg_ON sON
  rw [rd_shape h ho]
  by_cases h0 : s.getD off 0 = 79
  · have : off < s.length := getD_ne_zero_lt (by rw [h0]; decide)
    simp [-List.getD_eq_getElem?_getD, h0, rd_shape h (Nat.succ_le_of_lt this)]
  · simp [-List.getD_eq_getElem?_getD, h0]

theorem arg_OFF_shape {b s : List Nat} (h : Shape b s) (off : Nat) (ho : off ≤ s.length) :
    arg_OFF b off = some (sOFF s off) := by
  unfold arg_OFF sOFF
  rw [rd_shape h ho]
  by_cases h0 : s.getD off 0 = 79
  · have l0 : off < s.length := getD_ne_zero_lt (by rw [h0]; decide)
    by_cases h1 : s.getD (off + 1) 0 = 70
    · have l1 : off + 1 < s.length := getD_ne_zero_lt (by rw [h1]; decide)
      simp [-List.getD_eq_getElem?_getD, h0, h1, rd_shape h (Nat.succ_le_of_lt l0),
        rd_shape h (Nat.succ_le_of_lt l1)]
    · simp [-List.getD_eq_getElem?_getD, h0, h1, rd_shape h (Nat.succ_le_of_lt l0)]
  · simp [-List.getD_eq_getElem?_getD, h0]

theorem trunc_cstr {b s : List Nat} (h : Shape b s) (off m : Nat)
    (hi : off + m < CTL_BUFFER_SIZE) (ho : off ≤ s.length) :
    ∃ b', wr b (off + m) 0 = some b' ∧ Shape b' (s.take (off + m)) ∧
      cstr b' off = some ((s.take (off + m)).drop off) := by
  obtain ⟨b', hw, hs⟩ := wr_shape h hi
  refine ⟨b', hw, hs, cstr_shape hs ?_⟩
  rw [List.length_take]
  omega

/-! ### The three blocks on the C string -/

theorem block_skip {b s : List Nat} (h : Shape b s) {k : Nat} (hg : sguard s k = false) :
    guard_block b k = some false := by
  rw [guard_shape h, hg]

theorem block2_skip (w : Nat) {b s : List Nat} (h : Shape b s) (hg : sguard s 3 = false) :
    block2 w b = some (Flow.next b) := by
  simp [block2, block_skip h hg]

theorem block3_skip (w : Nat) {b s : List Nat} (h : Shape b s) (hg : sguard s 4 = false) :
    block3 w b = some (Flow.next b) := by
  simp [block3, block_skip h hg]

theorem block4_skip (w : Nat) {b s : List Nat} (h : Shape b s) (hg : sguard s 5 = false) :
    block4 w b = some (Flow.next b) := by
  simp [block4, block_skip h hg]

theorem sguard_length {s : List Nat} {k : Nat} (hg : sguard s k = true) : k < s.length := by
  simp [sguard] at hg
  exact hg.1

theorem block2_run (w : Nat) {b s : List Nat} (h : Shape b s) (hg : sguard s 3 = true) :
    BlockOk (block2 w b) (chomp s) (sblock2 w (chomp s)) := by
  have hlen := sguard_length hg
  obtain ⟨b1, hs, h1⟩ := strip_shape h hlen
  have hl1 : 3 ≤ (chomp s).length := by have := chomp_length_ge s; omega
  have hg' : guard_block b 3 = some true := by rw [guard_shape h, hg]
  have kw := kw2_shape h1 (by omega : 1 ≤ (chomp s).length)
  unfold block2 sblock2 BlockOk
  simp only [hg', hs, Option.some_bind, if_true, kw]
  rcases Bool.eq_false_or_eq_true (skw2 (chomp s) 80 73) with k | k
  · obtain ⟨b2, hw, h2, hc⟩ := trunc_cstr h1 3 4 (by decide) hl1
    simp only [k, if_true, hw, hc, Option.some_bind]
    exact ⟨b2, rfl, h2.2.1⟩
  simp only [k, if_false, Bool.false_eq_true]
  rcases Bool.eq_false_or_eq_true (skw2 (chomp s) 80 83) with k | k
  · obtain ⟨b2, hw, h2, hc⟩ := trunc_cstr h1 3 8 (by decide) hl1
    simp only [k, if_true, hw, hc, Option.some_bind]
    exact ⟨b2, rfl, h2.2.1⟩
  simp only [k, if_false, Bool.false_eq_true]
  rcases Bool.eq_false_or_eq_true (skw2 (chomp s) 82 84) with k | k
  · obtain ⟨b2, hw, h2, hc⟩ := trunc_cstr h1 3 64 (by decide) hl1
    simp only [k, if_true, hw, hc, Option.some_bind]
    exact ⟨b2, rfl, h2.2.1⟩
  simp only [k, if_false, Bool.false_eq_true]
  rcases Bool.eq_false_or_eq_true (skw2 (chomp s) 84 65) with k | k
  · simp only [k, if_true, arg_ON_shape h1 hl1, Option.some_bind]
    exact ⟨b1, rfl, h1.2.1⟩
  simp only [k, if_false, Bool.false_eq_true]
  rcases Bool.eq_false_or_eq_true (skw2 (chomp s) 84 80) with k | k
  · simp only [k, if_true, arg_ON_shape h1 hl1, Option.some_bind]
    exact ⟨b1, rfl, h1.2.1⟩
  simp only [k, if_false, Bool.false_eq_true]
  rcases Bool.eq_false_or_eq_true (skw2 (chomp s) 77 83) with k | k
  · simp only [k, if_true, arg_ON_shape h1 hl1, Option.some_bind]
    exact ⟨b1, rfl, h1.2.1⟩
  simp only [k, if_false, Bool.false_eq_true]
  rcases Bool.eq_false_or_eq_true (skw2 (chomp s) 65 66) with k | k
  · simp only [k, if_true, rd_shape h1 hl1, Option.some_bind]
    exact ⟨b1, rfl, h1.2.1⟩
  simp only [k, if_false, Bool.false_eq_true]
  rcases Bool.eq_false_or_eq_true (skw2 (chomp s) 68 73) with k | k
  · simp only [k, if_true, cstr_shape h1 hl1, Option.some_bind]
    exact ⟨b1, rfl, h1.2.1⟩
  simp only [k, if_false, Bool.false_eq_true]
  exact ⟨b1, rfl, h1⟩

theorem block3_run (w : Nat) {b s : List Nat} (h : Shape b s) (hg : sguard s 4 = true) :
    BlockOk (block3 w b) (chomp s) (sblock3 w (chomp s)) := by
  have hlen := sguard_length hg
  obtain ⟨b1, hs, h1⟩ := strip_shape h hlen
  have hl1 : 4 ≤ (chomp s).length := by have := chomp_length_ge s; omega
  have hg' : guard_block b 4 = some true := by rw [guard_shape h, hg]
  have kw := kw3_shape h1 (by omega : 2 ≤ (chomp s).length)
  have hc := cstr_shape h1 hl1
  unfold block3 sblock3 BlockOk
  simp only [hg', hs, Option.some_bind, if_true, kw]
  rcases Bool.eq_false_or_eq_true (skw3 (chomp s) 80 84 89) with k | k
  · simp only [k, if_true, hc, Option.some_bind]
    exact ⟨b1, rfl, h1.2.1⟩
  simp only [k, if_false, Bool.false_eq_true]
  rcases Bool.eq_false_or_eq_true (skw3 (chomp s) 82 84 80) with k | k
  · simp only [k, if_true, hc, Option.some_bind]
    exact ⟨b1, rfl, h1.2.1⟩
  simp only [k, if_false, Bool.false_eq_true]
  rcases Bool.eq_false_or_eq_true (skw3 (chomp s) 77 80 88) with k | k
  · simp only [k, if_true, hc, Option.some_bind]
    exact ⟨b1, rfl, h1.2.1⟩
  simp only [k, if_false, Bool.false_eq_true]
  rcases Bool.eq_false_or_eq_true (skw3 (chomp s) 86 79 76) with k | k
  · simp only [k, if_true, hc, Option.some_bind]
    exact ⟨b1, rfl, h1.2.1⟩
  simp only [k, if_false, Bool.false_eq_true]
  rcases Bool.eq_false_or_eq_true (skw3 (chomp s) 80 80 77) with k | k
  · simp only [k, if_true, hc, Option.some_bind]
    exact ⟨b1, rfl, h1.2.1⟩
  simp only [k, if_false, Bool.false_eq_true]
  exact ⟨b1, rfl, h1⟩

theorem block4_run (w : Nat) {b s : List Nat} (h : Shape b s) (hg : sguard s 5 = true) :
    BlockOk (block4 w b) (chomp s) (sblock4 w (chomp s)) := by
  have hlen := sguard_length hg
  obtain ⟨b1, hs, h1⟩ := strip_shape h hlen
  have hl1 : 5 ≤ (chomp s).length := by have := chomp_length_ge s; omega
  have hg' : guard_block b 5 = some true := by rw [guard_shape h, hg]
  have kw := kw4_shape h1 (by omega : 3 ≤ (chomp s).length)
  have hc := cstr_shape h1 hl1
  unfold block4 sblock4 BlockOk
  simp only [hg', hs, Option.some_bind, if_true, kw]
  rcases Bool.eq_false_or_eq_true (skw4 (chomp s) 82 84 80 70) with k | k
  · simp only [k, if_true, hc, Option.some_bind]
    exact ⟨b1, rfl, h1.2.1⟩
  simp only [k, if_false, Bool.false_eq_true]
  rcases Bool.eq_false_or_eq_true (skw4 (chomp s) 80 84 89 78) with k | k
  · obtain ⟨b2, hw, h2, hc2⟩ := trunc_cstr h1 5 8 (by decide) hl1
    have hoff := arg_OFF_shape h2 5 (by rw [List.length_take]; omega)
    simp only [k, if_true, hw, hoff, Option.some_bind]
    rcases Bool.eq_false_or_eq_true (sOFF (List.take (5 + 8) (chomp s)) 5) with o | o
    · simp only [o, if_true]
      exact ⟨b2, rfl, h2.2.1⟩
    · simp only [o, if_false, Bool.false_eq_true, hc2, Option.some_bind]
      exact ⟨b2, rfl, h2.2.1⟩
  simp only [k, if_false, Bool.false_eq_true]
  exact ⟨b1, rfl, h1⟩

theorem block2_ok (w : Nat) {b s : List Nat} (h : Shape b s) :
    BlockOk (block2 w b) (sstrip s 3) (sblock (sblock2 w) s 3) := by
  unfold sstrip sblock
  rcases Bool.eq_false_or_eq_true (sguard s 3) with g | g
  · simpa only [g, if_true] using block2_run w h g
  · simpa only [g, if_false, Bool.false_eq_true] using ⟨b, block2_skip w h g, h⟩

theorem block3_ok (w : Nat) {b s : List Nat} (h : Shape b s) :
    BlockOk (block3 w b) (sstrip s 4) (sblock (sblock3 w) s 4) := by
  unfold sstrip sblock
  rcases Bool.eq_false_or_eq_true (sguard s 4) with g | g
  · simpa only [g, if_true] using block3_run w h g
  · simpa only [g, if_false, Bool.false_eq_true] using ⟨b, block3_skip w h g, h⟩

theorem block4_ok (w : Nat) {b s : List Nat} (h : Shape b s) :
    BlockOk (block4 w b) (sstrip s 5) (sblock (sblock4 w) s 5) := by
  unfold sstrip sblock
  rcases Bool.eq_false_or_eq_true (sguard s 5) with g | g
  · simpa only [g, if_true] using block4_run w h g
  · simpa only [g, if_false, Bool.false_eq_true] using ⟨b, block4_skip w h g, h⟩

/-- The parser on a buffer holding the C string `s` runs inside the buffer and
returns what `interp` computes from `s`. -/
theorem parse_line_eq (w : Nat) {b s : List Nat} (h : Shape b s) :
    ∃ b', parse_line w b = some (Flow.returned (interp w s).1 (interp w s).2 b') ∧
      b'.length = CTL_BUFFER_SIZE := by
  unfold parse_line interp
  have h2 := block2_ok w h
  unfold BlockOk at h2
  split at h2
  · next c2 e2 =>
    obtain ⟨b2, hb2, l2⟩ := h2
    simp only [hb2, e2, Option.some_bind]
    exact ⟨b2, rfl, l2⟩
  · next e2 =>
    obtain ⟨b2, hb2, s2⟩ := h2
    simp only [hb2, e2, Option.some_bind]
    have h3 := block3_ok w s2
    unfold BlockOk at h3
    split at h3
    · next c3 e3 =>
      obtain ⟨b3, hb3, l3⟩ := h3
      simp only [hb3, e3, Option.some_bind]
      exact ⟨b3, rfl, l3⟩
    · next e3 =>
      obtain ⟨b3, hb3, s3⟩ := h3
      simp only [hb3, e3, Option.some_bind]
      have h4 := block4_ok w s3
      unfold BlockOk at h4
      split at h4
      · next c4 e4 =>
        obtain ⟨b4, hb4, l4⟩ := h4
        simp only [hb4, e4, Option.some_bind]
        exact ⟨b4, rfl, l4⟩
      · next e4 =>
        obtain ⟨b4, hb4, s4⟩ := h4
        simp only [hb4, e4, Option.some_bind]
        exact ⟨b4, rfl, s4.2.1⟩

/-! ### The line `fgets` leaves in the buffer -/

theorem upto0_nulFree (x : List Nat) : NulFree (upto0 x) := by
  induction x with
  | nil => intro c hc; simp [upto0] at hc
  | cons a x ih =>
    by_cases ha : a = 0
    · intro c hc; simp [upto0, ha] at hc
    · intro c hc
      simp only [upto0, if_neg ha, List.mem_cons] at hc
      rcases hc with rfl | hc
      · exact ha
      · exact ih c hc

theorem upto0_split (x y : List Nat) : ∃ t, x ++ 0 :: y = upto0 x ++ 0 :: t := by
  induction x with
  | nil => exact ⟨y, rfl⟩
  | cons a x ih =>
    by_cases ha : a = 0
    · exact ⟨x ++ 0 :: y, by simp [upto0, ha]⟩
    · obtain ⟨t, ht⟩ := ih
      exact ⟨t, by simp [upto0, ha, ht]⟩

theorem upto0_of_nulFree {x : List Nat} (h : NulFree x) : upto0 x = x := by
  induction x with
  | nil => rfl
  | cons a x ih => simp [upto0, h.head, ih h.tail]

theorem fgets_take_length_le (n : Nat) (st : List Nat) : (fgets_take n st).length ≤ n := by
  induction n generalizing st with
  | zero => simp [fgets_take]
  | succ n ih =>
    cases st with
    | nil => simp [fgets_take]
    | cons c cs =>
      by_cases hc : c = 10
      · simp [fgets_take, hc]
      · simpa [fgets_take, hc] using ih cs

theorem fgets_take_ne_nil (n : Nat) {st : List Nat} (h : st ≠ []) :
    (fgets_take (n + 1) st).length ≠ 0 := by
  cases st with
  | nil => exact absurd rfl h
  | cons c cs => by_cases hc : c = 10 <;> simp [fgets_take, hc]

/-- After a successful `fgets` the buffer holds the line read. -/
theorem fgets_shape {old st : List Nat} (hold : old.length = CTL_BUFFER_SIZE) (hst : st ≠ []) :
    ∃ b, fgets old CTL_BUFFER_SIZE st = some (b, st.drop (line_taken st).length) ∧
      Shape b (line_read st) := by
  have hne : (fgets_take (CTL_BUFFER_SIZE - 1) st).length ≠ 0 := fgets_take_ne_nil 98 hst
  have hle := fgets_take_length_le (CTL_BUFFER_SIZE - 1) st
  refine ⟨_, by simp only [fgets, if_neg hne]; rfl, upto0_nulFree _, ?_, ?_⟩
  · simp only [List.length_append, List.length_cons, List.length_drop, hold]
    simp only [CTL_BUFFER_SIZE] at hle ⊢
    omega
  · exact upto0_split _ _

/-- One call of `poll_control_pipe` with input pending: it runs inside the line
buffer, takes one line from the input, and its result and setter calls are those
`interp` computes from the C string read. -/
theorem poll_eq (w : Nat) {old st : List Nat} (hold : old.length = CTL_BUFFER_SIZE)
    (hst : st ≠ []) :
    ∃ b, poll_control_pipe w old st =
        some ⟨(interp w (line_read st)).1, (interp w (line_read st)).2, b,
          st.drop (line_taken st).length⟩ ∧ b.length = CTL_BUFFER_SIZE := by
  obtain ⟨b0, hf, hs⟩ := fgets_shape hold hst
  obtain ⟨b1, hp, hl⟩ := parse_line_eq w hs
  exact ⟨b1, by simp only [poll_control_pipe, hf, hp], hl⟩

/-- With no input pending the call returns -1 and changes nothing. -/
theorem poll_empty (w : Nat) (old : List Nat) :
    poll_control_pipe w old [] = some ⟨-1, [], old, []⟩ := by
  simp [poll_control_pipe, fgets, fgets_take, CTL_BUFFER_SIZE]

theorem poll_res (w : Nat) {old st : List Nat} (hold : old.length = CTL_BUFFER_SIZE)
    (hst : st ≠ []) :
    (poll_control_pipe w old st).map Outcome.res = some (interp w (line_read st)) := by
  obtain ⟨b, hp, _⟩ := poll_eq w hold hst
  rw [hp]
  rfl

theorem line_taken_eq_nil {st : List Nat} : line_taken st = [] ↔ st = [] := by
  constructor
  · intro h
    by_contra hne
    exact fgets_take_ne_nil 98 hne (by rw [show fgets_take (98 + 1) st = line_taken st from rfl, h]; rfl)
  · rintro rfl
    rfl

/-! ### Keywords -/

theorem chomp_getD {s : List Nat} {i v : Nat} (h : (chomp s).getD i 0 = v) (hv : v ≠ 0) :
    s.getD i 0 = v := by
  rw [chomp_eq] at h
  split at h
  · rw [List.getD_eq_getElem?_getD, List.getElem?_take] at h
    split at h
    · rw [List.getD_eq_getElem?_getD]; exact h
    · exact absurd h.symm hv
  · exact h

theorem sstrip_getD {s : List Nat} {k i v : Nat} (h : (sstrip s k).getD i 0 = v)
    (hv : v ≠ 0) : s.getD i 0 = v := by
  unfold sstrip at h
  split at h
  · exact chomp_getD h hv
  · exact h

theorem sstrip_length_le (s : List Nat) (k : Nat) : (sstrip s k).length ≤ s.length := by
  unfold sstrip
  split
  · exact chomp_length_le s
  · exact le_refl _

theorem sblock_some {blk : List Nat → Option (List Call)} {s : List Nat} {k : Nat}
    {c : List Call} (h : sblock blk s k = some c) :
    k < s.length ∧ s.getD (k - 1) 0 = 32 ∧ blk (chomp s) = some c := by
  unfold sblock at h
  split at h
  · next g =>
    simp only [sguard, Bool.and_eq_true, decide_eq_true_eq] at g
    exact ⟨g.1, g.2, h⟩
  · exact absurd h (by simp)

theorem sblock2_some {w : Nat} {s : List Nat} {c : List Call} (h : sblock2 w s = some c) :
    ∃ x y, [x, y] ∈ KEYWORDS ∧ x ≠ 0 ∧ y ≠ 0 ∧ s.getD 0 0 = x ∧ s.getD 1 0 = y := by
  unfold sblock2 at h
  simp only [skw2, Bool.and_eq_true, decide_eq_true_eq] at h
  split_ifs at h with h1 h2 h3 h4 h5 h6 h7 h8
  · exact ⟨80, 73, by decide, by decide, by decide, h1.1, h1.2⟩
  · exact ⟨80, 83, by decide, by decide, by decide, h2.1, h2.2⟩
  · exact ⟨82, 84, by decide, by decide, by decide, h3.1, h3.2⟩
  · exact ⟨84, 65, by decide, by decide, by decide, h4.1, h4.2⟩
  · exact ⟨84, 80, by decide, by decide, by decide, h5.1, h5.2⟩
  · exact ⟨77, 83, by decide, by decide, by decide, h6.1, h6.2⟩
  · exact ⟨65, 66, by decide, by decide, by decide, h7.1, h7.2⟩
  · exact ⟨68, 73, by decide, by decide, by decide, h8.1, h8.2⟩

theorem sblock3_some {w : Nat} {s : List Nat} {c : List Call} (h : sblock3 w s = some c) :
    ∃ x y z, [x, y, z] ∈ KEYWORDS ∧ x ≠ 0 ∧ y ≠ 0 ∧ z ≠ 0 ∧
      s.getD 0 0 = x ∧ s.getD 1 0 = y ∧ s.getD 2 0 = z := by
  unfold sblock3 at h
  rcases Bool.eq_false_or_eq_true (skw3 s 80 84 89) with k | k
  · simp only [skw3, skw2, Bool.and_eq_true, decide_eq_true_eq] at k
    exact ⟨80, 84, 89, by decide, by decide, by decide, by decide, k.1.1, k.1.2, k.2⟩
  simp only [k, Bool.false_eq_true, if_false] at h
  rcases Bool.eq_false_or_eq_true (skw3 s 82 84 80) with k | k
  · simp only [skw3, skw2, Bool.and_eq_true, decide_eq_true_eq] at k
    exact ⟨82, 84, 80, by decide, by decide, by decide, by decide, k.1.1, k.1.2, k.2⟩
  simp only [k, Bool.false_eq_true, if_false] at h
  rcases Bool.eq_false_or_eq_true (skw3 s 77 80 88) with k | k
  · simp only [skw3, skw2, Bool.and_eq_true, decide_eq_true_eq] at k
    exact ⟨77, 80, 88, by decide, by decide, by decide, by decide, k.1.1, k.1.2, k.2⟩
  simp only [k, Bool.false_eq_true, if_false] at h
  rcases Bool.eq_false_or_eq_true (skw3 s 86 79 76) with k | k
  · simp only [skw3, skw2, Bool.and_eq_true, decide_eq_true_eq] at k
    exact ⟨86, 79, 76, by decide, by decide, by decide, by decide, k.1.1, k.1.2, k.2⟩
  simp only [k, Bool.false_eq_true, if_false] at h
  rcases Bool.eq_false_or_eq_true (skw3 s 80 80 77) with k | k
  · simp only [skw3, skw2, Bool.and_eq_true, decide_eq_true_eq] at k
    exact ⟨80, 80, 77, by decide, by decide, by decide, by decide, k.1.1, k.1.2, k.2⟩
  simp only [k, Bool.false_eq_true, if_false] at h
  exact absurd h (by simp)

theorem sblock4_some {w : Nat} {s : List Nat} {c : List Call} (h : sblock4 w s = some c) :
    ∃ x y z u, [x, y, z, u] ∈ KEYWORDS ∧ x ≠ 0 ∧ y ≠ 0 ∧ z ≠ 0 ∧ u ≠ 0 ∧
      s.getD 0 0 = x ∧ s.getD 1 0 = y ∧ s.getD 2 0 = z ∧ s.getD 3 0 = u := by
  unfold sblock4 at h
  rcases Bool.eq_false_or_eq_true (skw4 s 82 84 80 70) with k | k
  · simp only [skw4, skw3, skw2, Bool.and_eq_true, decide_eq_true_eq] at k
    exact ⟨82, 84, 80, 70, by decide, by decide, by decide, by decide, by decide,
      k.1.1.1, k.1.1.2, k.1.2, k.2⟩
  simp only [k, Bool.false_eq_true, if_false] at h
  rcases Bool.eq_false_or_eq_true (skw4 s 80 84 89 78) with k | k
  · simp only [skw4, skw3, skw2, Bool.and_eq_true, decide_eq_true_eq] at k
    exact ⟨80, 84, 89, 78, by decide, by decide, by decide, by decide, by decide,
      k.1.1.1, k.1.1.2, k.1.2, k.2⟩
  simp only [k, Bool.false_eq_true, if_false] at h
  exact absurd h (by simp)

theorem form2 {s : List Nat} {x y : Nat} (h0 : s.getD 0 0 = x) (h1 : s.getD 1 0 = y)
    (h2 : s.getD 2 0 = 32) (hl : 3 < s.length) : ∃ c rest, s = [x, y] ++ 32 :: c :: rest := by
  match s, hl with
  | a :: b :: c :: d :: r, _ =>
    simp only [List.getD_cons_zero, List.getD_cons_succ] at h0 h1 h2
    subst h0 h1 h2
    exact ⟨d, r, rfl⟩

theorem form3 {s : List Nat} {x y z : Nat} (h0 : s.getD 0 0 = x) (h1 : s.getD 1 0 = y)
    (h2 : s.getD 2 0 = z) (h3 : s.getD 3 0 = 32) (hl : 4 < s.length) :
    ∃ c rest, s = [x, y, z] ++ 32 :: c :: rest := by
  match s, hl with
  | a :: b :: c :: d :: e :: r, _ =>
    simp only [List.getD_cons_zero, List.getD_cons_succ] at h0 h1 h2 h3
    subst h0 h1 h2 h3
    exact ⟨e, r, rfl⟩

theorem form4 {s : List Nat} {x y z u : Nat} (h0 : s.getD 0 0 = x) (h1 : s.getD 1 0 = y)
    (h2 : s.getD 2 0 = z) (h3 : s.getD 3 0 = u) (h4 : s.getD 4 0 = 32) (hl : 5 < s.length) :
    ∃ c rest, s = [x, y, z, u] ++ 32 :: c :: rest := by
  match s, hl with
  | a :: b :: c :: d :: e :: f :: r, _ =>
    simp only [List.getD_cons_zero, List.getD_cons_succ] at h0 h1 h2 h3 h4
    subst h0 h1 h2 h3 h4
    exact ⟨f, r, rfl⟩

theorem interp_ret (w : Nat) (s : List Nat) : (interp w s).1 = 1 ∨ (interp w s).1 = -1 := by
  unfold interp
  split
  · exact Or.inl rfl
  · split
    · exact Or.inl rfl
    · split
      · exact Or.inl rfl
      · exact Or.inr rfl

theorem interp_handled_form {w : Nat} {s : List Nat} (h : (interp w s).1 = 1) :
    IsCommand s := by
  unfold interp at h
  split at h
  · next c e =>
    obtain ⟨hl, h32, hb⟩ := sblock_some e
    obtain ⟨x, y, hK, hx, hy, g0, g1⟩ := sblock2_some hb
    obtain ⟨c, rest, hs⟩ := form2 (chomp_getD g0 hx) (chomp_getD g1 hy) h32 hl
    exact ⟨_, hK, c, rest, hs⟩
  · split at h
    · next c e =>
      obtain ⟨hl, h32, hb⟩ := sblock_some e
      obtain ⟨x, y, z, hK, hx, hy, hz, g0, g1, g2⟩ := sblock3_some hb
      have hl' := sstrip_length_le s 3
      obtain ⟨c, rest, hs⟩ := form3 (sstrip_getD (chomp_getD g0 hx) hx)
        (sstrip_getD (chomp_getD g1 hy) hy) (sstrip_getD (chomp_getD g2 hz) hz)
        (sstrip_getD h32 (by decide)) (by omega)
      exact ⟨_, hK, c, rest, hs⟩
    · split at h
      · next c e =>
        obtain ⟨hl, h32, hb⟩ := sblock_some e
        obtain ⟨x, y, z, u, hK, hx, hy, hz, hu, g0, g1, g2, g3⟩ := sblock4_some hb
        have hl' := sstrip_length_le s 3
        have hl'' := sstrip_length_le (sstrip s 3) 4
        obtain ⟨c, rest, hs⟩ := form4
          (sstrip_getD (sstrip_getD (chomp_getD g0 hx) hx) hx)
          (sstrip_getD (sstrip_getD (chomp_getD g1 hy) hy) hy)
          (sstrip_getD (sstrip_getD (chomp_getD g2 hz) hz) hz)
          (sstrip_getD (sstrip_getD (chomp_getD g3 hu) hu) hu)
          (sstrip_getD (sstrip_getD h32 (by decide)) (by decide)) (by omega)
        exact ⟨_, hK, c, rest, hs⟩
      · simp at h

theorem interp_form_handled {w : Nat} {s : List Nat} (h : IsCommand s) :
    (interp w s).1 = 1 := by
  obtain ⟨K, hK, c, rest, rfl⟩ := h
  simp only [KEYWORDS, List.mem_cons, List.mem_singleton, List.not_mem_nil, or_false] at hK
  rcases hK with rfl | rfl | rfl | rfl | rfl | rfl | rfl | rfl | rfl | rfl | rfl | rfl |
    rfl | rfl | rfl
  all_goals
    simp [interp, sblock, sstrip, sguard, chomp, sblock2, sblock3, sblock4, skw2, skw3, skw4]

/-! ### Lines that start with a keyword -/

theorem poll_line (w : Nat) {old st s : List Nat} (hold : old.length = CTL_BUFFER_SIZE)
    (hline : line_read st = s) (hs : s ≠ []) :
    (poll_control_pipe w old st).map Outcome.res = some (interp w s) := by
  have hst : st ≠ [] := by
    rintro rfl
    exact hs (hline ▸ rfl)
  rw [poll_res w hold hst, hline]

theorem interp_block2 {w x y c : Nat} {r : List Nat} {cs : List Call}
    (h : sblock2 w (x :: y :: 32 :: chomp (c :: r)) = some cs) :
    interp w (x :: y :: 32 :: c :: r) = (1, cs) := by
  simp [interp, sblock, sguard, chomp, h]

theorem interp_block3 {w x y z c : Nat} {r : List Nat} {cs : List Call} (hz : z ≠ 32)
    (h : sblock3 w (x :: y :: z :: 32 :: chomp (c :: r)) = some cs) :
    interp w (x :: y :: z :: 32 :: c :: r) = (1, cs) := by
  simp [interp, sblock, sstrip, sguard, chomp, h, hz]

theorem interp_block4 {w x y z u c : Nat} {r : List Nat} {cs : List Call} (hz : z ≠ 32)
    (hu : u ≠ 32) (h : sblock4 w (x :: y :: z :: u :: 32 :: chomp (c :: r)) = some cs) :
    interp w (x :: y :: z :: u :: 32 :: c :: r) = (1, cs) := by
  simp [interp, sblock, sstrip, sguard, chomp, h, hz, hu]

theorem chomp_cons_ne {d : Nat} (r : List Nat) (hd : d ≠ 10) :
    ∃ r', chomp (d :: r) = d :: r' := by
  cases r with
  | nil => exact ⟨[], by simp [chomp, hd]⟩
  | cons e r => exact ⟨chomp (e :: r), rfl⟩

theorem chomp_head {d v : Nat} {r : List Nat} (hv : v ≠ 0) :
    (chomp (d :: r)).getD 0 0 = v → d = v := by
  intro h
  simpa using chomp_getD h hv

/-- The `ON` test of the flag commands looks at the first two bytes of the
argument. -/
theorem sON_arg (x y z : Nat) (a : List Nat) :
    sON (x :: y :: z :: chomp a) 3 = decide (a.take 2 = [79, 78]) := by
  unfold sON
  simp only [List.getD_cons_succ, Nat.reduceAdd]
  match a with
  | [] => simp [chomp]
  | [c] => by_cases hc : c = 10 <;> simp [chomp, hc]
  | c :: d :: r =>
    by_cases hd : d = 78
    · subst hd
      obtain ⟨r', hr'⟩ := chomp_cons_ne r (by decide : (78 : Nat) ≠ 10)
      simp [chomp, hr']
    · have : ¬ (chomp (d :: r)).getD 0 0 = 78 := fun h => hd (chomp_head (by decide) h)
      simp [-List.getD_eq_getElem?_getD, chomp, hd, this]

/-! ### Hexadecimal digits -/

theorem hex_digit_facts {h d : Nat} (hd : digit_val 16 h = some d) :
    d < 16 ∧ isspace h = false ∧ h ≠ 45 ∧ h ≠ 43 ∧ h ≠ 120 ∧ h ≠ 88 ∧ h ≠ 10 := by
  unfold digit_val at hd
  have hsp : isspace h = false ∨ h = 32 ∨ (9 ≤ h ∧ h ≤ 13) := by
    by_cases h1 : h = 32
    · exact Or.inr (Or.inl h1)
    · by_cases h2 : 9 ≤ h ∧ h ≤ 13
      · exact Or.inr (Or.inr h2)
      · left
        simp only [isspace, Bool.or_eq_false_iff, Bool.and_eq_false_iff, decide_eq_false_iff_not]
        refine ⟨h1, ?_⟩
        by_cases h3 : 9 ≤ h
        · exact Or.inr (fun h4 => h2 ⟨h3, h4⟩)
        · exact Or.inl h3
  split_ifs at hd with c1 c2 c3 c4 c5 c6 <;>
    simp only [Option.some.injEq] at hd <;>
    (subst hd
     refine ⟨by omega, ?_, by omega, by omega, by omega, by omega, by omega⟩
     rcases hsp with hs | hs | hs
     · exact hs
     · omega
     · omega)

theorem strtoul_hex4 {w h1 h2 h3 h4 d1 d2 d3 d4 : Nat} (hw : 16 ≤ w)
    (e1 : digit_val 16 h1 = some d1) (e2 : digit_val 16 h2 = some d2)
    (e3 : digit_val 16 h3 = some d3) (e4 : digit_val 16 h4 = some d4) :
    strtoul w 16 [h1, h2, h3, h4] % 2 ^ 16 = d1 * 4096 + d2 * 256 + d3 * 16 + d4 := by
  obtain ⟨b1, s1, m1, p1, _, _, _⟩ := hex_digit_facts e1
  obtain ⟨b2, _, _, _, x2, y2, _⟩ := hex_digit_facts e2
  obtain ⟨b3, _⟩ := hex_digit_facts e3
  obtain ⟨b4, _⟩ := hex_digit_facts e4
  have hpow : 2 ^ 16 ≤ 2 ^ w := Nat.pow_le_pow_right (by decide) hw
  have hv' : ¬ 2 ^ w ≤ (((0 * 16 + d1) * 16 + d2) * 16 + d3) * 16 + d4 := by
    have : (2:Nat) ^ 16 = 65536 := by norm_num
    omega
  have hlt : (((0 * 16 + d1) * 16 + d2) * 16 + d3) * 16 + d4 < 2 ^ 16 := by
    have : (2:Nat) ^ 16 = 65536 := by norm_num
    omega
  simp only [strtoul, scan_ul, skip_space, s1, scan_sign, m1, p1, scan_0x, x2, y2, e1, e2, e3,
    e4, scan_digits, Option.isSome_some, if_true, if_false, false_or, and_false, false_and,
    Bool.false_eq_true, hv', reduceIte]
  rw [Nat.mod_eq_of_lt hlt]
  ring

/-- The `OFF` test of PTYN looks at the first three bytes of the argument. -/
theorem sOFF_arg (p0 p1 p2 p3 p4 : Nat) (x : List Nat) :
    sOFF (List.take (5 + 8) (p0 :: p1 :: p2 :: p3 :: p4 :: x)) 5
      = decide (x.take 3 = [79, 70, 70]) := by
  unfold sOFF
  match x with
  | [] => simp
  | [a] => simp
  | [a, b] => simp
  | a :: b :: c :: r => simp [Bool.and_assoc]

/-! ## Claims about poll_control_pipe -/

/-- C12: on every pending input and every prior contents of the 100-byte line
buffer, `poll_control_pipe` completes with a result: no read or write leaves the
buffer (the model fails on such an access, and on a terminator strip of an empty
argument), and the buffer still has 100 bytes afterwards. -/
theorem C12_poll_never_leaves_buffer (w : Nat) (old st : List Nat)
    (hold : old.length = CTL_BUFFER_SIZE) :
    ∃ o, poll_control_pipe w old st = some o ∧ o.buf.length = CTL_BUFFER_SIZE := by
  by_cases hst : st = []
  · subst hst
    exact ⟨_, poll_empty w old, hold⟩
  · obtain ⟨b, hp, hl⟩ := poll_eq w hold hst
    exact ⟨_, hp, hl⟩

/-- Witness for C12: a 99-byte line without terminator on a buffer full of
non-NUL bytes. -/
theorem C12_poll_never_leaves_buffer_witness :
    (fill 88).length = CTL_BUFFER_SIZE ∧
    ∃ o, poll_control_pipe 64 (fill 88) (List.replicate 99 82) = some o ∧
      o.buf.length = CTL_BUFFER_SIZE :=
  ⟨by decide, C12_poll_never_leaves_buffer 64 (fill 88) (List.replicate 99 82) (by decide)⟩

/-- C19: the value returned and the setter calls made depend only on the line
taken from the input: two calls that take the same line, on any two contents of
the static line buffer and with anything queued behind the line, have the same
result, and both complete. -/
theorem C19_parser_stateless (w : Nat) (old1 old2 st1 st2 : List Nat)
    (h1 : old1.length = CTL_BUFFER_SIZE) (h2 : old2.length = CTL_BUFFER_SIZE)
    (hline : line_taken st1 = line_taken st2) :
    (poll_control_pipe w old1 st1).map Outcome.res =
      (poll_control_pipe w old2 st2).map Outcome.res ∧
    (poll_control_pipe w old1 st1).isSome = true := by
  by_cases hst : st1 = []
  · have hst2 : st2 = [] := line_taken_eq_nil.mp (hline ▸ line_taken_eq_nil.mpr hst)
    subst hst hst2
    simp [poll_empty, Outcome.res]
  · have hst2 : st2 ≠ [] := fun h => hst (line_taken_eq_nil.mp (hline ▸ line_taken_eq_nil.mpr h))
    refine ⟨?_, ?_⟩
    · rw [poll_res w h1 hst, poll_res w h2 hst2, line_read, line_read, hline]
    · obtain ⟨b, hp, _⟩ := poll_eq w h1 hst
      rw [hp]
      rfl

/-- Witness for C19: the line `PS AB` read into a buffer of NULs and into a
buffer full of `X`, with and without a second line queued behind it. -/
theorem C19_parser_stateless_witness :
    (poll_control_pipe 64 (fill 0) (bytes "PS AB\n")).map Outcome.res =
      (poll_control_pipe 64 (fill 88) (bytes "PS AB\nRT x\n")).map Outcome.res ∧
    (poll_control_pipe 64 (fill 0) (bytes "PS AB\n")).isSome = true :=
  C19_parser_stateless 64 (fill 0) (fill 88) (bytes "PS AB\n") (bytes "PS AB\nRT x\n")
    (by decide) (by decide) (by decide)

/-- C10: whenever `poll_control_pipe` returns -1 (unmatched), it has called no
setter, so every broadcast parameter keeps its value. -/
theorem C10_unmatched_no_mutation (w : Nat) (old st : List Nat)
    (hold : old.length = CTL_BUFFER_SIZE) :
    ∃ o, poll_control_pipe w old st = some o ∧ (o.ret = -1 → o.calls = []) := by
  by_cases hst : st = []
  · subst hst
    exact ⟨_, poll_empty w old, fun _ => rfl⟩
  · obtain ⟨b, hp, _⟩ := poll_eq w hold hst
    refine ⟨_, hp, ?_⟩
    show (interp w (line_read st)).1 = -1 → (interp w (line_read st)).2 = []
    unfold interp
    split
    · intro h; simp at h
    · split
      · intro h; simp at h
      · split
        · intro h; simp at h
        · intro _; rfl

/-- Witness for C10: the line `XY hello` is unmatched and calls no setter. -/
theorem C10_unmatched_no_mutation_witness :
    (∃ o, poll_control_pipe 64 (fill 0) (bytes "XY hello\n") = some o ∧
      (o.ret = -1 → o.calls = [])) ∧
    (poll_control_pipe 64 (fill 0) (bytes "XY hello\n")).map Outcome.res = some (-1, []) :=
  ⟨C10_unmatched_no_mutation 64 (fill 0) (bytes "XY hello\n") (by decide), by decide⟩

/-- C1: `poll_control_pipe` returns 1 exactly on the lines of the form keyword,
space, rest with a non-empty rest (whatever the rest holds, whether or not a
setter is called), and -1 on every other line and when no line is pending.  The
line is the C string in the buffer after `fgets`. -/
theorem C1_handled_iff_keyword (w : Nat) (old st : List Nat)
    (hold : old.length = CTL_BUFFER_SIZE) :
    ∃ o, poll_control_pipe w old st = some o ∧
      (IsCommand (line_read st) → o.ret = 1) ∧
      (¬ IsCommand (line_read st) → o.ret = -1) := by
  by_cases hst : st = []
  · subst hst
    refine ⟨_, poll_empty w old, fun h => ?_, fun _ => rfl⟩
    obtain ⟨K, _, c, rest, hs⟩ := h
    have : line_read [] = [] := rfl
    rw [this] at hs
    exact absurd hs (by simp)
  · obtain ⟨b, hp, _⟩ := poll_eq w hold hst
    refine ⟨_, hp, fun h => interp_form_handled h, fun h => ?_⟩
    rcases interp_ret w (line_read st) with h1 | h1
    · exact absurd (interp_handled_form h1) h
    · exact h1

/-- Witness for C1: `PTY 99` is handled although no setter is called. -/
theorem C1_handled_iff_keyword_witness :
    (fill 0).length = CTL_BUFFER_SIZE ∧
    (∃ o, poll_control_pipe 64 (fill 0) (bytes "PTY 99\n") = some o ∧
      (IsCommand (line_read (bytes "PTY 99\n")) → o.ret = 1) ∧
      (¬ IsCommand (line_read (bytes "PTY 99\n")) → o.ret = -1)) ∧
    (poll_control_pipe 64 (fill 0) (bytes "PTY 99\n")).map Outcome.res = some (1, []) :=
  ⟨by decide, C1_handled_iff_keyword 64 (fill 0) (bytes "PTY 99\n") (by decide), by decide⟩

/-- C2: on a line `PS ` + a (resp. `RT ` + a) with a non-empty a, the string
handed to `set_rds_ps` (resp. `set_rds_rt`) is a, without its trailing newline,
cut to its first 8 (resp. 64) bytes: it is a itself when that is short enough, it
has exactly 8 (resp. 64) bytes otherwise, and it is always a prefix of a. -/
theorem C2_text_truncation (w : Nat) (old st a : List Nat)
    (hold : old.length = CTL_BUFFER_SIZE) (ha : a ≠ []) :
    (line_read st = 80 :: 83 :: 32 :: a →
      (poll_control_pipe w old st).map Outcome.res
        = some (1, [Call.set_rds_ps ((chomp a).take 8)])) ∧
    (line_read st = 82 :: 84 :: 32 :: a →
      (poll_control_pipe w old st).map Outcome.res
        = some (1, [Call.set_rds_rt ((chomp a).take 64)])) ∧
    (∀ n, ((chomp a).length ≤ n → (chomp a).take n = chomp a) ∧
      (n < (chomp a).length → ((chomp a).take n).length = n) ∧
      (chomp a).take n <+: chomp a) := by
  obtain ⟨c, r, rfl⟩ := List.exists_cons_of_ne_nil ha
  refine ⟨fun h => ?_, fun h => ?_, fun n => ⟨List.take_of_length_le, fun hn => ?_,
    List.take_prefix _ _⟩⟩
  · rw [poll_line w hold h (by simp)]
    exact congrArg some (interp_block2 (by simp [sblock2, skw2]))
  · rw [poll_line w hold h (by simp)]
    exact congrArg some (interp_block2 (by simp [sblock2, skw2]))
  · rw [List.length_take]
    omega

/-- Witness for C2: `PS ABCDEFGHIJK` stores exactly `ABCDEFGH`. -/
theorem C2_text_truncation_witness :
    (poll_control_pipe 64 (fill 88) (bytes "PS ABCDEFGHIJK\n")).map Outcome.res
      = some (1, [Call.set_rds_ps (bytes "ABCDEFGH")]) :=
  (C2_text_truncation 64 (fill 88) (bytes "PS ABCDEFGHIJK\n") (bytes "ABCDEFGHIJK\n")
    (by decide) (by decide)).1 (by decide)

/-- C5: on a line `TA ` + a with a non-empty a, `set_rds_ta` is called once, with
true exactly when a begins with the two bytes `ON`; the same holds for `TP ` with
`set_rds_tp` and for `MS ` with `set_rds_ms`. -/
theorem C5_flag_true_iff_on (w : Nat) (old st a : List Nat)
    (hold : old.length = CTL_BUFFER_SIZE) (ha : a ≠ []) :
    (line_read st = 84 :: 65 :: 32 :: a →
      (poll_control_pipe w old st).map Outcome.res
        = some (1, [Call.set_rds_ta (decide (a.take 2 = [79, 78]))])) ∧
    (line_read st = 84 :: 80 :: 32 :: a →
      (poll_control_pipe w old st).map Outcome.res
        = some (1, [Call.set_rds_tp (decide (a.take 2 = [79, 78]))])) ∧
    (line_read st = 77 :: 83 :: 32 :: a →
      (poll_control_pipe w old st).map Outcome.res
        = some (1, [Call.set_rds_ms (decide (a.take 2 = [79, 78]))])) := by
  obtain ⟨c, r, rfl⟩ := List.exists_cons_of_ne_nil ha
  refine ⟨fun h => ?_, fun h => ?_, fun h => ?_⟩
  · rw [poll_line w hold h (by simp)]
    exact congrArg some (interp_block2 (by simp only [sblock2, sON_arg]; simp [skw2]))
  · rw [poll_line w hold h (by simp)]
    exact congrArg some (interp_block2 (by simp only [sblock2, sON_arg]; simp [skw2]))
  · rw [poll_line w hold h (by simp)]
    exact congrArg some (interp_block2 (by simp only [sblock2, sON_arg]; simp [skw2]))

/-- Witness for C5: `TA ON` sets the flag, `TA on` clears it. -/
theorem C5_flag_true_iff_on_witness :
    (poll_control_pipe 64 (fill 88) (bytes "TA ON\n")).map Outcome.res
      = some (1, [Call.set_rds_ta true]) ∧
    (poll_control_pipe 64 (fill 88) (bytes "TA on\n")).map Outcome.res
      = some (1, [Call.set_rds_ta false]) :=
  ⟨(C5_flag_true_iff_on 64 (fill 88) (bytes "TA ON\n") (bytes "ON\n")
      (by decide) (by decide)).1 (by decide),
   (C5_flag_true_iff_on 64 (fill 88) (bytes "TA on\n") (bytes "on\n")
      (by decide) (by decide)).1 (by decide)⟩

/-- C11: on a line `PI ` + a whose first four bytes are hexadecimal digits (of
either case) with values d1, d2, d3, d4, `set_rds_pi` is called with the 16-bit
value of that numeral, whatever follows the fourth digit. -/
theorem C11_pi_first_four_hex (w : Nat) (old st r : List Nat) (h1 h2 h3 h4 d1 d2 d3 d4 : Nat)
    (hold : old.length = CTL_BUFFER_SIZE) (hw : 16 ≤ w)
    (e1 : digit_val 16 h1 = some d1) (e2 : digit_val 16 h2 = some d2)
    (e3 : digit_val 16 h3 = some d3) (e4 : digit_val 16 h4 = some d4)
    (hline : line_read st = 80 :: 73 :: 32 :: h1 :: h2 :: h3 :: h4 :: r) :
    (poll_control_pipe w old st).map Outcome.res
      = some (1, [Call.set_rds_pi (d1 * 4096 + d2 * 256 + d3 * 16 + d4)]) ∧
    d1 * 4096 + d2 * 256 + d3 * 16 + d4 < 2 ^ 16 := by
  have hne : h4 ≠ 10 := (hex_digit_facts e4).2.2.2.2.2.2
  obtain ⟨r', hr'⟩ := chomp_cons_ne r hne
  refine ⟨?_, ?_⟩
  · rw [poll_line w hold hline (by simp)]
    refine congrArg some (interp_block2 ?_)
    simp only [sblock2, skw2, chomp, hr', List.getD_cons_zero, List.getD_cons_succ,
      decide_True, Bool.and_self, if_true, List.take_succ_cons, List.take_zero,
      List.drop_succ_cons, List.drop_zero, Nat.reduceAdd]
    rw [strtoul_hex4 hw e1 e2 e3 e4]
  · have := (hex_digit_facts e1).1
    have := (hex_digit_facts e2).1
    have := (hex_digit_facts e3).1
    have := (hex_digit_facts e4).1
    norm_num
    omega

/-- Witness for C11: `PI 12abXYZ` sets the Program Identification to 0x12AB. -/
theorem C11_pi_first_four_hex_witness :
    (poll_control_pipe 64 (fill 88) (bytes "PI 12abXYZ\n")).map Outcome.res
      = some (1, [Call.set_rds_pi (1 * 4096 + 2 * 256 + 10 * 16 + 11)]) ∧
    1 * 4096 + 2 * 256 + 10 * 16 + 11 < 2 ^ 16 :=
  C11_pi_first_four_hex 64 (fill 88) (bytes "PI 12abXYZ\n") (bytes "XYZ\n") 49 50 97 98 1 2 10 11
    (by decide) (by decide) (by decide) (by decide) (by decide) (by decide) (by decide)

/-- C9 (counterexample): the argument `OFFICE` is not the literal `OFF`, yet
`PTYN OFFICE` clears the Program Type Name instead of setting it to `OFFICE`. -/
theorem C9_ptyn_office_cleared :
    (poll_control_pipe 64 (fill 88) (bytes "PTYN OFFICE\n")).map Outcome.res
      = some (1, [Call.set_rds_ptyn []]) ∧
    (poll_control_pipe 64 (fill 88) (bytes "PTYN OFFICE\n")).map Outcome.res
      ≠ some (1, [Call.set_rds_ptyn (bytes "OFFICE")]) ∧
    bytes "OFFICE" ≠ bytes "OFF" := by
  decide

/-- C9 (amended): on a line `PTYN ` + a with a non-empty a, the Program Type
Name is cleared when a, without its trailing newline, begins with `OFF`, and is
otherwise set to a cut to its first 8 bytes. -/
theorem C9_ptyn_cleared_on_off (w : Nat) (old st a : List Nat)
    (hold : old.length = CTL_BUFFER_SIZE) (ha : a ≠ [])
    (hline : line_read st = 80 :: 84 :: 89 :: 78 :: 32 :: a) :
    (poll_control_pipe w old st).map Outcome.res
      = some (1, [Call.set_rds_ptyn
          (if (chomp a).take 3 = [79, 70, 70] then [] else (chomp a).take 8)]) := by
  obtain ⟨c, r, rfl⟩ := List.exists_cons_of_ne_nil ha
  rw [poll_line w hold hline (by simp)]
  refine congrArg some (interp_block4 (by decide) (by decide) ?_)
  simp only [sblock4, sOFF_arg]
  by_cases h : (chomp (c :: r)).take 3 = [79, 70, 70]
  · simp [skw4, skw3, skw2, h]
  · simp [skw4, skw3, skw2, h]

/-- Witness for C9 (amended): `PTYN OFF` clears the name and `PTYN Jazz Radio 1`
sets it to `Jazz Rad`. -/
theorem C9_ptyn_cleared_on_off_witness :
    (poll_control_pipe 64 (fill 88) (bytes "PTYN OFF\n")).map Outcome.res
      = some (1, [Call.set_rds_ptyn []]) ∧
    (poll_control_pipe 64 (fill 88) (bytes "PTYN Jazz Radio 1\n")).map Outcome.res
      = some (1, [Call.set_rds_ptyn (bytes "Jazz Rad")]) :=
  ⟨C9_ptyn_cleared_on_off 64 (fill 88) (bytes "PTYN OFF\n") (bytes "OFF\n")
      (by decide) (by decide) (by decide),
   C9_ptyn_cleared_on_off 64 (fill 88) (bytes "PTYN Jazz Radio 1\n") (bytes "Jazz Radio 1\n")
      (by decide) (by decide) (by decide)⟩

/-- C4 (counterexample): `DI abc` holds no number, yet `set_rds_di` is called,
with the value 0. -/
theorem C4_di_abc_sets_zero :
    scan_ul 64 10 (bytes "abc") = none ∧
    (poll_control_pipe 64 (fill 88) (bytes "DI abc\n")).map Outcome.res
      = some (1, [Call.set_rds_di 0]) := by
  decide

/-- C4 (amended): when the argument of PI, DI, PTY or VOL holds no number in the
base of the command, the setter is called with the value 0 and the line is
handled; the setter of PPM is always called, with what `strtof` makes of the
argument. -/
theorem C4_parse_failure_sets_zero (w : Nat) (old st a : List Nat)
    (hold : old.length = CTL_BUFFER_SIZE) (ha : a ≠ []) :
    (line_read st = 80 :: 73 :: 32 :: a → scan_ul w 16 ((chomp a).take 4) = none →
      (poll_control_pipe w old st).map Outcome.res = some (1, [Call.set_rds_pi 0])) ∧
    (line_read st = 68 :: 73 :: 32 :: a → scan_ul w 10 (chomp a) = none →
      (poll_control_pipe w old st).map Outcome.res = some (1, [Call.set_rds_di 0])) ∧
    (line_read st = 80 :: 84 :: 89 :: 32 :: a → scan_ul w 10 (chomp a) = none →
      (poll_control_pipe w old st).map Outcome.res = some (1, [Call.set_rds_pty 0])) ∧
    (line_read st = 86 :: 79 :: 76 :: 32 :: a → scan_ul w 10 (chomp a) = none →
      (poll_control_pipe w old st).map Outcome.res = some (1, [Call.set_output_volume 0])) ∧
    (line_read st = 80 :: 80 :: 77 :: 32 :: a →
      (poll_control_pipe w old st).map Outcome.res
        = some (1, [Call.set_output_ppm (chomp a)])) := by
  obtain ⟨c, r, rfl⟩ := List.exists_cons_of_ne_nil ha
  refine ⟨fun h e => ?_, fun h e => ?_, fun h e => ?_, fun h e => ?_, fun h => ?_⟩
  · rw [poll_line w hold h (by simp)]
    refine congrArg some (interp_block2 ?_)
    have e' : scan_ul w 16 (List.take 4 (chomp (c :: r))) = none := e
    simp [sblock2, skw2, strtoul, e']
  · rw [poll_line w hold h (by simp)]
    exact congrArg some (interp_block2 (by simp [sblock2, skw2, strtoul, e]))
  · rw [poll_line w hold h (by simp)]
    exact congrArg some (interp_block3 (by decide) (by simp [sblock3, skw3, skw2, strtoul, e]))
  · rw [poll_line w hold h (by simp)]
    exact congrArg some (interp_block3 (by decide) (by simp [sblock3, skw3, skw2, strtoul, e]))
  · rw [poll_line w hold h (by simp)]
    exact congrArg some (interp_block3 (by decide) (by simp [sblock3, skw3, skw2]))

/-- Witness for C4 (amended): `VOL ` followed by a newline only sets the volume
to 0. -/
theorem C4_parse_failure_sets_zero_witness :
    (poll_control_pipe 64 (fill 88) (bytes "VOL \n")).map Outcome.res
      = some (1, [Call.set_output_volume 0]) :=
  (C4_parse_failure_sets_zero 64 (fill 88) (bytes "VOL \n") (bytes "\n")
    (by decide) (by decide)).2.2.2.1 (by decide) (by decide)

/-- C7: on an RTP line whose argument yields fewer than six numbers, an MPX line
whose argument yields fewer than five, and an RTPF line whose argument yields
fewer than two, no setter is called and the line is handled. -/
theorem C7_incomplete_lists_ignored (w : Nat) (old st a : List Nat)
    (hold : old.length = CTL_BUFFER_SIZE) (ha : a ≠ []) :
    (line_read st = 82 :: 84 :: 80 :: 32 :: a → (sscanf_u w 6 (chomp a)).length < 6 →
      (poll_control_pipe w old st).map Outcome.res = some (1, [])) ∧
    (line_read st = 77 :: 80 :: 88 :: 32 :: a → (sscanf_u w 5 (chomp a)).length < 5 →
      (poll_control_pipe w old st).map Outcome.res = some (1, [])) ∧
    (line_read st = 82 :: 84 :: 80 :: 70 :: 32 :: a → (sscanf_u w 2 (chomp a)).length < 2 →
      (poll_control_pipe w old st).map Outcome.res = some (1, [])) := by
  obtain ⟨c, r, rfl⟩ := List.exists_cons_of_ne_nil ha
  refine ⟨fun h e => ?_, fun h e => ?_, fun h e => ?_⟩
  · rw [poll_line w hold h (by simp)]
    exact congrArg some (interp_block3 (by decide)
      (by simp [sblock3, skw3, skw2, Nat.ne_of_lt e]))
  · rw [poll_line w hold h (by simp)]
    exact congrArg some (interp_block3 (by decide)
      (by simp [sblock3, skw3, skw2, Nat.ne_of_lt e]))
  · rw [poll_line w hold h (by simp)]
    exact congrArg some (interp_block4 (by decide) (by decide)
      (by simp [sblock4, skw4, skw3, skw2, Nat.ne_of_lt e]))

/-- Witness for C7: `RTP 1,2,3` yields three numbers, calls no setter and is
handled. -/
theorem C7_incomplete_lists_ignored_witness :
    (sscanf_u 64 6 (bytes "1,2,3")).length = 3 ∧
    (poll_control_pipe 64 (fill 88) (bytes "RTP 1,2,3\n")).map Outcome.res = some (1, []) :=
  ⟨by decide,
   (C7_incomplete_lists_ignored 64 (fill 88) (bytes "RTP 1,2,3\n") (bytes "1,2,3\n")
      (by decide) (by decide)).1 (by decide) (by decide)⟩

/-- C3 (the code at the failing inputs): numerals outside 0..31 that reach
`set_rds_pty`.  With a 64-bit `unsigned long`, `PTY 4294967296` sets the Program
Type to 0 and `PTY -18446744073709551615` sets it to 1; with a 32-bit one,
`PTY -4294967295` sets it to 1.  `PTY 99` calls no setter. -/
theorem C3_pty_wraparound :
    (poll_control_pipe 64 (fill 88) (bytes "PTY 4294967296\n")).map Outcome.res
      = some (1, [Call.set_rds_pty 0]) ∧
    (poll_control_pipe 64 (fill 88) (bytes "PTY -18446744073709551615\n")).map Outcome.res
      = some (1, [Call.set_rds_pty 1]) ∧
    (poll_control_pipe 32 (fill 88) (bytes "PTY -4294967295\n")).map Outcome.res
      = some (1, [Call.set_rds_pty 1]) ∧
    (poll_control_pipe 64 (fill 88) (bytes "PTY 99\n")).map Outcome.res = some (1, []) := by
  decide

/-- C6 (the code at the failing input): `RTP 1,2,3,4,5,6` hands the setter the
array of six `unsigned int`; read byte by byte, its first six bytes give the
descriptors (1,0,0) and (0,2,0) on a little-endian target and (0,0,0) and
(1,0,0) on a big-endian one, not (1,2,3) and (4,5,6). -/
theorem C6_rtp_tags_read_as_bytes :
    (poll_control_pipe 64 (fill 88) (bytes "RTP 1,2,3,4,5,6\n")).map Outcome.res
      = some (1, [Call.set_rds_rtplus_tags [1, 2, 3, 4, 5, 6]]) ∧
    set_rds_rtplus_tags (([1, 2, 3, 4, 5, 6] : List Nat).flatMap bytes_le) = ((1, 0, 0), (0, 2, 0)) ∧
    set_rds_rtplus_tags (([1, 2, 3, 4, 5, 6] : List Nat).flatMap bytes_be) = ((0, 0, 0), (1, 0, 0)) := by
  decide

/-! ## float2char -/

theorem frame_length (c : Nat) (s : Int) : (frame c s).length = frame_size c := by
  unfold frame frame_size
  split <;> rfl

theorem wr_at (pre rest : List Nat) (n v : Nat) (h : n < rest.length) :
    wr (pre ++ rest) (pre.length + n) v = some (pre ++ rest.set n v) := by
  unfold wr
  rw [if_pos (by simp; omega), List.set_append_right _ _ (Nat.le_add_right _ _)]
  simp

theorem rd_at (pre rest : List Nat) (n : Nat) :
    rd (pre ++ rest) (pre.length + n) = rest[n]? := by
  unfold rd
  rw [List.getElem?_append_right (Nat.le_add_right _ _)]
  simp

theorem exists_cons2 (l : List Nat) (h : 2 ≤ l.length) : ∃ a0 a1 r, l = a0 :: a1 :: r := by
  match l, h with
  | a0 :: a1 :: r, _ => exact ⟨a0, a1, r, rfl⟩
  | [], h => exact absurd h (by simp)
  | [_], h => exact absurd h (by simp)

theorem exists_cons4 (l : List Nat) (h : 4 ≤ l.length) :
    ∃ a0 a1 a2 a3 r, l = a0 :: a1 :: a2 :: a3 :: r := by
  match l, h with
  | a0 :: a1 :: a2 :: a3 :: r, _ => exact ⟨a0, a1, a2, a3, r, rfl⟩
  | [], h => exact absurd h (by simp)
  | [_], h => exact absurd h (by simp)
  | [_, _], h => exact absurd h (by simp)
  | [_, _, _], h => exact absurd h (by simp)

/-- The loop of `float2char`, run for `k` samples from input index `i` and output
offset `j = pre.length`, overwrites the next `k` frames of the output with the
frames of the samples and touches nothing else. -/
theorem float2char_loop_spec {F : Type} (conv : F → Int) (inbuf : List F) (c k : Nat) :
    ∀ (i : Nat) (pre rest : List Nat), i + k ≤ inbuf.length →
      k * frame_size c ≤ rest.length →
      float2char_loop conv inbuf c k i pre.length (pre ++ rest)
        = some (pre ++ (((inbuf.drop i).take k).flatMap (fun x => frame c (conv x))
            ++ rest.drop (k * frame_size c))) := by
  induction k with
  | zero => intro i pre rest _ _; simp [float2char_loop]
  | succ k ih =>
    intro i pre rest hi hr
    have hlt : i < inbuf.length := by omega
    have hdrop : inbuf.drop i = inbuf[i] :: inbuf.drop (i + 1) := List.drop_eq_getElem_cons hlt
    rw [hdrop, List.take_succ_cons, List.flatMap_cons]
    by_cases hc : c = 2
    · have hm : frame_size c = 4 := by simp [frame_size, hc]
      rw [hm] at hr
      obtain ⟨a0, a1, a2, a3, r, rfl⟩ := exists_cons4 rest (by omega)
      have hr' : k * frame_size c ≤ r.length := by
        rw [hm]; simp only [List.length_cons] at hr; omega
      have e := ih (i + 1)
        (pre ++ [lo_byte (conv inbuf[i]), hi_byte (conv inbuf[i]),
          lo_byte (conv inbuf[i]), hi_byte (conv inbuf[i])]) r (by omega) hr'
      have w0 := wr_at pre (a0 :: a1 :: a2 :: a3 :: r) 0 (lo_byte (conv inbuf[i])) (by simp)
      have w1 := wr_at pre (lo_byte (conv inbuf[i]) :: a1 :: a2 :: a3 :: r) 1
        (hi_byte (conv inbuf[i])) (by simp)
      have w2 := wr_at pre (lo_byte (conv inbuf[i]) :: hi_byte (conv inbuf[i]) :: a2 :: a3 :: r) 2
        (lo_byte (conv inbuf[i])) (by simp)
      have w3 := wr_at pre (lo_byte (conv inbuf[i]) :: hi_byte (conv inbuf[i]) ::
        lo_byte (conv inbuf[i]) :: a3 :: r) 3 (hi_byte (conv inbuf[i])) (by simp)
      simp only [List.set_cons_zero, List.set_cons_succ] at w0 w1 w2 w3
      have e4 : pre.length + 2 + 2 = (pre ++ [lo_byte (conv inbuf[i]), hi_byte (conv inbuf[i]),
          lo_byte (conv inbuf[i]), hi_byte (conv inbuf[i])]).length := by simp
      have e' : (pre ++ [lo_byte (conv inbuf[i]), hi_byte (conv inbuf[i]),
          lo_byte (conv inbuf[i]), hi_byte (conv inbuf[i])]) ++ r
          = pre ++ lo_byte (conv inbuf[i]) :: hi_byte (conv inbuf[i]) ::
            lo_byte (conv inbuf[i]) :: hi_byte (conv inbuf[i]) :: r := by simp
      rw [float2char_loop]
      simp only [List.getElem?_eq_getElem hlt, Option.some_bind, if_pos hc, w0, w1, w2, w3,
        rd_at, List.getElem?_cons_zero, List.getElem?_cons_succ]
      rw [e4, ← e', e]
      have hd : List.drop ((k + 1) * 4) (a0 :: a1 :: a2 :: a3 :: r) = List.drop (k * 4) r := by
        rw [show (k + 1) * 4 = k * 4 + 1 + 1 + 1 + 1 by omega]; rfl
      rw [hm, hd]
      simp only [frame, if_pos hc, List.append_assoc, List.cons_append, List.nil_append]
    · have hm : frame_size c = 2 := by simp [frame_size, hc]
      rw [hm] at hr
      obtain ⟨a0, a1, r, rfl⟩ := exists_cons2 rest (by omega)
      have hr' : k * frame_size c ≤ r.length := by
        rw [hm]; simp only [List.length_cons] at hr; omega
      have e := ih (i + 1) (pre ++ [lo_byte (conv inbuf[i]), hi_byte (conv inbuf[i])]) r
        (by omega) hr'
      have w0 := wr_at pre (a0 :: a1 :: r) 0 (lo_byte (conv inbuf[i])) (by simp)
      have w1 := wr_at pre (lo_byte (conv inbuf[i]) :: a1 :: r) 1
        (hi_byte (conv inbuf[i])) (by simp)
      simp only [List.set_cons_zero, List.set_cons_succ] at w0 w1
      have e4 : pre.length + 2
          = (pre ++ [lo_byte (conv inbuf[i]), hi_byte (conv inbuf[i])]).length := by simp
      have e' : (pre ++ [lo_byte (conv inbuf[i]), hi_byte (conv inbuf[i])]) ++ r
          = pre ++ lo_byte (conv inbuf[i]) :: hi_byte (conv inbuf[i]) :: r := by simp
      rw [float2char_loop]
      simp only [List.getElem?_eq_getElem hlt, Option.some_bind, if_neg hc, w0, w1]
      rw [e4, ← e', e]
      have hd : List.drop ((k + 1) * 2) (a0 :: a1 :: r) = List.drop (k * 2) r := by
        rw [show (k + 1) * 2 = k * 2 + 1 + 1 by omega]; rfl
      rw [hm, hd]
      simp only [frame, if_neg hc, List.append_assoc, List.cons_append, List.nil_append]

theorem flatMap_length_const {α : Type} (f : α → List Nat) (m : Nat)
    (hf : ∀ x, (f x).length = m) (l : List α) : (l.flatMap f).length = l.length * m := by
  induction l with
  | nil => simp
  | cons a l ih => simp [List.flatMap_cons, ih, hf, Nat.succ_mul, Nat.add_comm]

theorem flatMap_getElem? {α : Type} (f : α → List Nat) (m : Nat)
    (hf : ∀ x, (f x).length = m) :
    ∀ (l : List α) (i t : Nat), t < m →
      (l.flatMap f ++ tl)[i * m + t]? = match l[i]? with
        | some x => (f x)[t]?
        | none => tl[i * m + t - l.length * m]? := by
  intro l
  induction l with
  | nil => intro i t _; simp
  | cons a l ih =>
    intro i t ht
    cases i with
    | zero =>
      simp only [List.flatMap_cons, Nat.zero_mul, Nat.zero_add, List.getElem?_cons_zero,
        List.append_assoc]
      rw [List.getElem?_append_left (by rw [hf]; exact ht)]
    | succ i =>
      have hidx : (i + 1) * m + t = (f a).length + (i * m + t) := by rw [hf, Nat.succ_mul]; omega
      simp only [List.flatMap_cons, List.getElem?_cons_succ, List.append_assoc]
      rw [hidx, List.getElem?_append_right (Nat.le_add_right _ _), Nat.add_sub_cancel_left,
        ih i t ht]
      have : (f a).length + (i * m + t) - (l.length + 1) * m = i * m + t - l.length * m := by
        rw [hf, Nat.succ_mul]; omega
      simp only [List.length_cons, this]

theorem byte_pair (s : Int) :
    lo_byte s < 256 ∧ hi_byte s < 256 ∧ (lo_byte s : Int) + 256 * (hi_byte s : Int) = s % 65536 := by
  unfold lo_byte hi_byte
  have h1 : 0 ≤ s % 256 := Int.emod_nonneg _ (by decide)
  have h2 : s % 256 < 256 := Int.emod_lt_of_pos _ (by decide)
  have h3 : 0 ≤ s / 256 % 256 := Int.emod_nonneg _ (by decide)
  have h4 : s / 256 % 256 < 256 := Int.emod_lt_of_pos _ (by decide)
  refine ⟨by omega, by omega, ?_⟩
  rw [Int.toNat_of_nonneg h1, Int.toNat_of_nonneg h3]
  omega

/-- The output of `float2char` when the buffers are large enough: the frames of
the first `n` samples, followed by the untouched rest of `outbuf`. -/
theorem float2char_eq {F : Type} (conv : F → Int) (inbuf : List F) (outbuf : List Nat)
    (n c : Nat) (hin : n ≤ inbuf.length) (hout : n * frame_size c ≤ outbuf.length) :
    float2char conv inbuf outbuf n c
      = some ((inbuf.take n).flatMap (fun x => frame c (conv x))
          ++ outbuf.drop (n * frame_size c)) := by
  have h := float2char_loop_spec conv inbuf c n 0 [] outbuf (by omega) hout
  simpa [float2char] using h

/-- C15: for `n` input samples and 1 or 2 channels, `float2char` writes the
16-bit sample of input `i` low byte first: at offsets `2i`, `2i+1` for one
channel, and at `4i`, `4i+1` and again at `4i+2`, `4i+3` for two; the two bytes
are below 256 and `low + 256 * high` is the sample modulo 65536; the buffer keeps
its size and every offset from `n * c * 2` on keeps its old byte. -/
theorem C15_float2char_little_endian {F : Type} (conv : F → Int) (inbuf : List F)
    (outbuf : List Nat) (n c : Nat) (hc : c = 1 ∨ c = 2) (hin : n ≤ inbuf.length)
    (hout : n * c * 2 ≤ outbuf.length) :
    ∃ out, float2char conv inbuf outbuf n c = some out ∧ out.length = outbuf.length ∧
      (∀ i x, i < n → inbuf[i]? = some x →
        (c = 1 → out[2 * i]? = some (lo_byte (conv x)) ∧
          out[2 * i + 1]? = some (hi_byte (conv x))) ∧
        (c = 2 → out[4 * i]? = some (lo_byte (conv x)) ∧
          out[4 * i + 1]? = some (hi_byte (conv x)) ∧
          out[4 * i + 2]? = some (lo_byte (conv x)) ∧
          out[4 * i + 3]? = some (hi_byte (conv x)))) ∧
      (∀ k, n * c * 2 ≤ k → out[k]? = outbuf[k]?) ∧
      (∀ s : Int, lo_byte s < 256 ∧ hi_byte s < 256 ∧
        (lo_byte s : Int) + 256 * (hi_byte s : Int) = s % 65536) := by
  have hm : frame_size c = c * 2 := by
    rcases hc with rfl | rfl <;> simp [frame_size]
  have hm' : n * frame_size c = n * c * 2 := by rw [hm, Nat.mul_assoc]
  have hout' : n * frame_size c ≤ outbuf.length := by rw [hm']; exact hout
  have hlen : ((inbuf.take n).flatMap (fun x => frame c (conv x))).length = n * frame_size c := by
    rw [flatMap_length_const _ (frame_size c) (fun x => frame_length c (conv x)),
      List.length_take, Nat.min_eq_left hin]
  refine ⟨_, float2char_eq conv inbuf outbuf n c hin hout', ?_, ?_, ?_, byte_pair⟩
  · rw [List.length_append, hlen, List.length_drop]
    omega
  · intro i x hi hx
    have hx' : (inbuf.take n)[i]? = some x := by
      rw [List.getElem?_take]; simp [hi, hx]
    have key : ∀ t, t < frame_size c →
        ((inbuf.take n).flatMap (fun x => frame c (conv x))
          ++ outbuf.drop (n * frame_size c))[i * frame_size c + t]? = (frame c (conv x))[t]? := by
      intro t ht
      rw [flatMap_getElem? _ (frame_size c) (fun x => frame_length c (conv x)) _ i t ht, hx']
    constructor
    · rintro rfl
      have k0 := key 0 (by simp [frame_size])
      have k1 := key 1 (by simp [frame_size])
      simp only [frame_size, frame] at k0 k1
      simp only [show ¬ (1 = 2) by decide, if_false, Nat.add_zero, List.getElem?_cons_zero,
        List.getElem?_cons_succ] at k0 k1
      rw [Nat.mul_comm 2 i]
      exact ⟨k0, k1⟩
    · rintro rfl
      have k0 := key 0 (by simp [frame_size])
      have k1 := key 1 (by simp [frame_size])
      have k2 := key 2 (by simp [frame_size])
      have k3 := key 3 (by simp [frame_size])
      simp only [frame_size, frame, if_true, Nat.add_zero, List.getElem?_cons_zero,
        List.getElem?_cons_succ] at k0 k1 k2 k3
      rw [Nat.mul_comm 4 i]
      exact ⟨k0, k1, k2, k3⟩
  · intro k hk
    rw [List.getElem?_append_right (by rw [hlen, hm']; exact hk), hlen, List.getElem?_drop, hm']
    congr 1
    omega

/-- Witness for C15: two samples, 0x1234 and -2, written for two channels into a
buffer of ten bytes. -/
theorem C15_float2char_little_endian_witness :
    ∃ out, float2char (fun x : Int => x) [4660, -2] (List.replicate 10 7) 2 2 = some out ∧
      out = [52, 18, 52, 18, 254, 255, 254, 255, 7, 7] :=
  let ⟨out, h, _⟩ := C15_float2char_little_endian (fun x : Int => x) [4660, -2]
    (List.replicate 10 7) 2 2 (Or.inr rfl) (by decide) (by decide)
  ⟨out, h, Option.some.inj (h.symm.trans (by decide))⟩

theorem wr_some {out o : List Nat} {i v : Nat} (h : wr out i v = some o) :
    i < out.length ∧ o.length = out.length := by
  unfold wr at h
  split at h
  · next hi =>
    simp only [Option.some.injEq] at h
    subst h
    exact ⟨hi, by simp⟩
  · exact absurd h (by simp)

/-- A run of the loop that stays inside the output buffer needs room for all of
its frames. -/
theorem float2char_loop_bound {F : Type} (conv : F → Int) (inbuf : List F) (c k : Nat) :
    ∀ (i j : Nat) (out res : List Nat), float2char_loop conv inbuf c k i j out = some res →
      k = 0 ∨ j + k * frame_size c ≤ out.length := by
  induction k with
  | zero => intro i j out res _; exact Or.inl rfl
  | succ k ih =>
    intro i j out res h
    right
    rw [float2char_loop] at h
    simp only [Option.bind_eq_some] at h
    obtain ⟨x, _, o1, h1, o2, h2, h⟩ := h
    obtain ⟨b1, l1⟩ := wr_some h1
    obtain ⟨b2, l2⟩ := wr_some h2
    by_cases hc : c = 2
    · have hm : frame_size c = 4 := by simp [frame_size, hc]
      simp only [if_pos hc, Option.bind_eq_some] at h
      obtain ⟨a, _, o3, h3, b, _, o4, h4, h⟩ := h
      obtain ⟨b3, l3⟩ := wr_some h3
      obtain ⟨b4, l4⟩ := wr_some h4
      rcases ih _ _ _ _ h with rfl | hb
      · rw [hm]; omega
      · rw [hm] at hb ⊢
        rw [Nat.succ_mul]
        omega
    · have hm : frame_size c = 2 := by simp [frame_size, hc]
      simp only [if_neg hc] at h
      rcases ih _ _ _ _ h with rfl | hb
      · rw [hm]; omega
      · rw [hm] at hb ⊢
        rw [Nat.succ_mul]
        omega

/-- C20 (the code at the failing inputs): when `dev_out` has `DATA_SIZE` bytes
and the `n` frames to convert need more than that (`n * c * 2 > DATA_SIZE`, which
`n <= DATA_SIZE` allows), `float2char` writes outside `dev_out`, although every
read of the input is inside `inbuf`. -/
theorem C20_float2char_leaves_dev_out {F : Type} (conv : F → Int) (inbuf : List F)
    (dev_out : List Nat) (DATA_SIZE n c : Nat) (hsize : dev_out.length = DATA_SIZE)
    (hc : c = 1 ∨ c = 2) (hn : n ≤ DATA_SIZE) (hover : DATA_SIZE < n * c * 2) :
    float2char conv inbuf dev_out n c = none ∧
    (n ≤ inbuf.length → ∀ i, i < n → (inbuf[i]?).isSome = true) := by
  refine ⟨?_, fun hin i hi => ?_⟩
  swap
  · rw [List.getElem?_eq_getElem (by omega)]
    rfl
  cases hres : float2char conv inbuf dev_out n c with
  | none => rfl
  | some res =>
    exfalso
    have hm : n * frame_size c = n * c * 2 := by
      rcases hc with rfl | rfl
      · simp [frame_size]
      · simp [frame_size]; omega
    rcases float2char_loop_bound conv inbuf c n 0 0 dev_out res hres with h0 | hb
    · subst h0
      simp at hover
    · rw [hm, hsize] at hb
      omega

/-- Witness for C20: with `DATA_SIZE = 4`, four frames for one channel leave the
four-byte buffer. -/
theorem C20_float2char_leaves_dev_out_witness :
    float2char (fun x : Int => x) [1, 2, 3, 4] [0, 0, 0, 0] 4 1 = none ∧
    ((4 : Nat) ≤ ([1, 2, 3, 4] : List Int).length →
      ∀ i, i < 4 → (([1, 2, 3, 4] : List Int)[i]?).isSome = true) :=
  C20_float2char_leaves_dev_out (fun x : Int => x) [1, 2, 3, 4] [0, 0, 0, 0] 4 4 1 rfl
    (Or.inl rfl) (by decide) (by decide)

/-! ## The control channel reader -/

theorem fgets_take_complete (body rest : List Nat) (n : Nat) (hb : 10 ∉ body)
    (hn : body.length < n) : fgets_take n (body ++ 10 :: rest) = body ++ [10] := by
  induction body generalizing n with
  | nil =>
    obtain ⟨m, rfl⟩ := Nat.exists_eq_succ_of_ne_zero (Nat.pos_iff_ne_zero.mp hn)
    simp [fgets_take]
  | cons c body ih =>
    obtain ⟨m, rfl⟩ := Nat.exists_eq_succ_of_ne_zero (Nat.pos_iff_ne_zero.mp (Nat.zero_lt_of_lt hn))
    have hc : c ≠ 10 := fun h => hb (h ▸ List.mem_cons_self _ _)
    have hb' : 10 ∉ body := fun h => hb (List.mem_cons_of_mem _ h)
    rw [List.cons_append, fgets_take, if_neg hc, ih m hb' (by simpa using hn)]
    rfl

theorem fgets_take_long (st : List Nat) (n : Nat) (hnl : ∀ c ∈ st.take n, c ≠ 10) :
    fgets_take n st = st.take n := by
  induction n generalizing st with
  | zero => simp [fgets_take]
  | succ n ih =>
    cases st with
    | nil => simp [fgets_take]
    | cons c cs =>
      have hc : c ≠ 10 := hnl c (by simp)
      have hcs : ∀ d ∈ cs.take n, d ≠ 10 := fun d hd => hnl d (by simp [hd])
      simp only [fgets_take, if_neg hc, List.take_succ_cons, ih cs hcs]

/-- C13: when a complete line that fits the buffer (at most 99 bytes, its only
newline at the end) is pending with anything queued behind it, one call of
`poll_control_pipe` takes exactly that line, interprets it (with the result it
has when it is pending alone), and leaves what was queued behind it pending,
unchanged; and one iteration of the pipeline loop with a control channel makes
exactly one such call. -/
theorem C13_one_line_per_call (w : Nat) (old body queue : List Nat)
    (hold : old.length = CTL_BUFFER_SIZE) (hb : 10 ∉ body)
    (hlen : (body ++ [10]).length ≤ CTL_BUFFER_SIZE - 1) :
    (∃ o, poll_control_pipe w old ((body ++ [10]) ++ queue) = some o ∧
      o.f_ctl = queue ∧
      some (o.ret, o.calls) = (poll_control_pipe w old (body ++ [10])).map Outcome.res) ∧
    (∀ channels it,
      (mpx_iteration true channels it).1.count Ev.poll_control_pipe = 1) := by
  constructor
  · have hst : (body ++ [10]) ++ queue ≠ [] := by simp
    have hbl : body.length < CTL_BUFFER_SIZE - 1 := by
      simp only [List.length_append, List.length_singleton] at hlen; omega
    have htk : line_taken ((body ++ [10]) ++ queue) = body ++ [10] := by
      unfold line_taken
      rw [List.append_assoc, List.singleton_append]
      exact fgets_take_complete body queue _ hb hbl
    have htk0 : line_taken (body ++ [10]) = body ++ [10] := by
      unfold line_taken
      exact fgets_take_complete body [] _ hb hbl
    obtain ⟨b, hp, _⟩ := poll_eq w hold hst
    refine ⟨_, hp, ?_, ?_⟩
    · show List.drop (line_taken ((body ++ [10]) ++ queue)).length ((body ++ [10]) ++ queue)
        = queue
      rw [htk, List.drop_left]
    · rw [poll_res w hold (by simp : body ++ [10] ≠ [])]
      show some ((interp w (line_read ((body ++ [10]) ++ queue))).1,
        (interp w (line_read ((body ++ [10]) ++ queue))).2) = _
      rw [line_read, line_read, htk, htk0]
  · intro channels it
    unfold mpx_iteration
    split_ifs <;> simp_all [List.count_cons]

/-- Witness for C13: of three queued lines the call takes `PS A` and leaves the
other two. -/
theorem C13_one_line_per_call_witness :
    (∃ o, poll_control_pipe 64 (fill 0) ((bytes "PS A" ++ [10]) ++ bytes "RT b\nTA ON\n") = some o ∧
      o.f_ctl = bytes "RT b\nTA ON\n" ∧
      some (o.ret, o.calls)
        = (poll_control_pipe 64 (fill 0) (bytes "PS A" ++ [10])).map Outcome.res) ∧
    (∀ channels it,
      (mpx_iteration true channels it).1.count Ev.poll_control_pipe = 1) :=
  C13_one_line_per_call 64 (fill 0) (bytes "PS A") (bytes "RT b\nTA ON\n")
    (by decide) (by decide) (by decide)

set_option maxRecDepth 20000 in
/-- C14 (counterexample): of the over-long line the first call takes the first
99 bytes and sets the Radio Text; the excess `PS HACKED` stays pending, the next
call reads it as a line and sets the Program Service name. -/
theorem C14_excess_read_as_command :
    (poll_control_pipe 64 (fill 0) long_line).map Outcome.res
      = some (1, [Call.set_rds_rt (List.replicate 64 120)]) ∧
    (poll_control_pipe 64 (fill 0) long_line).map Outcome.f_ctl
      = some (bytes "PS HACKED\n") ∧
    ((poll_control_pipe 64 (fill 0) long_line).bind
        (fun o => poll_control_pipe 64 o.buf o.f_ctl)).map Outcome.res
      = some (1, [Call.set_rds_ps (bytes "HACKED")]) := by
  decide

/-- C14 (amended): when the pending input has no newline among its first 99
bytes and more bytes follow, the call takes exactly the first 99 bytes as the
line (its result is that of these 99 bytes pending alone) and leaves all the
others pending; the next call completes too and interprets the excess like any
pending input. -/
theorem C14_long_line_split (w : Nat) (old st : List Nat)
    (hold : old.length = CTL_BUFFER_SIZE) (hlong : CTL_BUFFER_SIZE - 1 < st.length)
    (hnl : ∀ c ∈ st.take (CTL_BUFFER_SIZE - 1), c ≠ 10) :
    line_taken st = st.take (CTL_BUFFER_SIZE - 1) ∧
    ∃ o, poll_control_pipe w old st = some o ∧
      o.f_ctl = st.drop (CTL_BUFFER_SIZE - 1) ∧
      some (o.ret, o.calls)
        = (poll_control_pipe w old (st.take (CTL_BUFFER_SIZE - 1))).map Outcome.res ∧
      (poll_control_pipe w o.buf o.f_ctl).map Outcome.res
        = (poll_control_pipe w old (st.drop (CTL_BUFFER_SIZE - 1))).map Outcome.res ∧
      (poll_control_pipe w o.buf o.f_ctl).isSome = true := by
  have htk : line_taken st = st.take (CTL_BUFFER_SIZE - 1) := fgets_take_long st _ hnl
  have hst : st ≠ [] := by
    rintro rfl
    simp at hlong
  have hlen : (List.take (CTL_BUFFER_SIZE - 1) st).length = CTL_BUFFER_SIZE - 1 := by
    rw [List.length_take]; omega
  have htake : st.take (CTL_BUFFER_SIZE - 1) ≠ [] := by
    intro h
    rw [h] at hlen
    simp [CTL_BUFFER_SIZE] at hlen
  have htk' : line_taken (st.take (CTL_BUFFER_SIZE - 1)) = st.take (CTL_BUFFER_SIZE - 1) := by
    have := fgets_take_long (st.take (CTL_BUFFER_SIZE - 1)) (CTL_BUFFER_SIZE - 1)
      (by rw [List.take_take, Nat.min_self]; exact hnl)
    rw [List.take_take, Nat.min_self] at this
    exact this
  have hdrop : st.drop (CTL_BUFFER_SIZE - 1) ≠ [] := by
    intro h
    have := congrArg List.length h
    rw [List.length_drop] at this
    simp at this
    omega
  obtain ⟨b, hp, hb⟩ := poll_eq w hold hst
  refine ⟨htk, _, hp, ?_, ?_, ?_, ?_⟩
  · show List.drop (line_taken st).length st = _
    rw [htk, hlen]
  · rw [poll_res w hold htake]
    show some ((interp w (line_read st)).1, (interp w (line_read st)).2) = _
    rw [line_read, line_read, htk, htk']
  · show (poll_control_pipe w b (List.drop (line_taken st).length st)).map Outcome.res = _
    rw [htk, hlen, poll_res w hb hdrop, poll_res w hold hdrop]
  · show (poll_control_pipe w b (List.drop (line_taken st).length st)).isSome = true
    rw [htk, hlen]
    obtain ⟨b2, hp2, _⟩ := poll_eq w hb hdrop
    rw [hp2]
    rfl

set_option maxRecDepth 20000 in
/-- Witness for C14 (amended), on the over-long line above. -/
theorem C14_long_line_split_witness :
    line_taken long_line = long_line.take (CTL_BUFFER_SIZE - 1) ∧
    ∃ o, poll_control_pipe 64 (fill 0) long_line = some o ∧
      o.f_ctl = long_line.drop (CTL_BUFFER_SIZE - 1) ∧
      some (o.ret, o.calls)
        = (poll_control_pipe 64 (fill 0) (long_line.take (CTL_BUFFER_SIZE - 1))).map Outcome.res ∧
      (poll_control_pipe 64 o.buf o.f_ctl).map Outcome.res
        = (poll_control_pipe 64 (fill 0) (long_line.drop (CTL_BUFFER_SIZE - 1))).map Outcome.res ∧
      (poll_control_pipe 64 o.buf o.f_ctl).isSome = true :=
  C14_long_line_split 64 (fill 0) long_line (by decide) (by decide) (by decide)

/-! ## generate_mpx -/

/-- C18: the resample ratio configured is `192000/228000 + ppm/1000000`; over
the rationals a larger ppm gives a strictly larger ratio, and ppm 0 gives
exactly `192000/228000`. -/
theorem C18_ratio_strictly_monotone (ppm1 ppm2 : ℚ) (h : ppm1 < ppm2) :
    src_ratio ppm1 < src_ratio ppm2 ∧ src_ratio 0 = 192000 / 228000 ∧
    (∀ ppm, src_ratio ppm = 192000 / 228000 + ppm / 1000000) := by
  refine ⟨?_, by simp [src_ratio], fun _ => rfl⟩
  unfold src_ratio
  have : ppm1 / 1000000 < ppm2 / 1000000 := div_lt_div_of_pos_right h (by norm_num)
  linarith

/-- Witness for C18: 1 ppm against 0 ppm. -/
theorem C18_ratio_strictly_monotone_witness :
    src_ratio 0 < src_ratio 1 ∧ src_ratio 0 = 192000 / 228000 ∧
    (∀ ppm, src_ratio ppm = 192000 / 228000 + ppm / 1000000) :=
  C18_ratio_strictly_monotone 0 1 (by norm_num)

theorem mpx_iteration_no_release (cp : Bool) (ch : Nat) (it : Iter) :
    ∀ e ∈ (mpx_iteration cp ch it).1, e.is_release = false := by
  have hall : (mpx_iteration cp ch it).1.all (fun e => !e.is_release) = true := by
    unfold mpx_iteration
    cases cp <;> split_ifs <;> rfl
  intro e he
  have := List.all_eq_true.mp hall e he
  simpa using this

theorem mpx_loop_no_release (cp : Bool) (ch : Nat) :
    ∀ (its : List Iter) (tr : List Ev), mpx_loop cp ch its = some tr →
      ∀ e ∈ tr, e.is_release = false := by
  intro its
  induction its with
  | nil => intro tr h; simp [mpx_loop] at h
  | cons it rest ih =>
    intro tr h e he
    rw [mpx_loop] at h
    split at h
    · cases hr : mpx_loop cp ch rest with
      | none => simp [hr] at h
      | some tr' =>
        simp only [hr, Option.map_some', Option.some.injEq] at h
        subst h
        rcases List.mem_append.mp he with h1 | h1
        · exact mpx_iteration_no_release cp ch it e h1
        · exact ih tr' hr e h1
    · simp only [Option.some.injEq] at h
      subst h
      exact mpx_iteration_no_release cp ch it e he

/-- C16 (counterexample): the control channel is configured and cannot be
opened, yet `generate_mpx` enters the streaming loop, generates and writes a
block, and returns 0. -/
theorem C16_ctl_failure_not_fatal :
    (open_control_pipe setup_ctl_fails.ctl_open setup_ctl_fails.ctl_fcntl
      setup_ctl_fails.ctl_fdopen).1 = -1 ∧
    generate_mpx setup_ctl_fails two_iterations
      = some (0, [Ev.ao_open_live, Ev.src_new, Ev.fm_mpx_open, Ev.init_rds_encoder,
          Ev.open_control_pipe,
          Ev.fm_mpx_get_samples, Ev.src_process, Ev.float2char 431 2, Ev.ao_play 1724,
          Ev.fm_mpx_get_samples,
          Ev.close_control_pipe false, Ev.fm_mpx_close, Ev.ao_close, Ev.ao_shutdown,
          Ev.src_delete]) := by
  decide

/-- C16 (amended): if the audio sink cannot be opened, `generate_mpx` returns 1
after the attempt to open it, without entering the streaming loop; if a
configured control channel cannot be opened (and the rest of the start-up
succeeds), the run goes on as if none were configured: the loop runs without
polling and `generate_mpx` returns 0 when the loop ends. -/
theorem C16_sink_failure_fatal (su : Setup) (its : List Iter) :
    (su.sink_ok = false →
      ∃ tr, generate_mpx su its = some (1, tr) ∧
        ∀ e ∈ tr, e = Ev.ao_open_file ∨ e = Ev.ao_open_live) ∧
    (su.sink_ok = true → su.src_ok = true → su.mpx_ok = true → su.rds_ok = true →
      (su.output_file && su.to_stdout && su.stdout_tty) = false →
      su.control_pipe = true →
      (open_control_pipe su.ctl_open su.ctl_fcntl su.ctl_fdopen).1 ≠ 0 →
      generate_mpx su its
        = (mpx_loop false (if su.output_file then 1 else 2) its).map (fun tr =>
            (0, [if su.output_file then Ev.ao_open_file else Ev.ao_open_live, Ev.src_new,
              Ev.fm_mpx_open, Ev.init_rds_encoder, Ev.open_control_pipe] ++ tr
              ++ release false))) := by
  constructor
  · intro hs
    unfold generate_mpx
    by_cases htty : (su.output_file && su.to_stdout && su.stdout_tty) = true
    · exact ⟨[], by simp only [htty, if_true], by simp⟩
    · refine ⟨[if su.output_file then Ev.ao_open_file else Ev.ao_open_live], ?_, ?_⟩
      · simp only [htty, hs, Bool.not_false, if_true, if_false, Bool.false_eq_true]
      · intro e he
        simp only [List.mem_singleton] at he
        subst he
        cases su.output_file <;> simp
  · intro h1 h2 h3 h4 h5 h6 h7
    have hopen : (open_control_pipe su.ctl_open su.ctl_fcntl su.ctl_fdopen).2 = false := by
      unfold open_control_pipe at h7 ⊢
      split_ifs at h7 ⊢ <;> first | rfl | exact absurd rfl h7
    unfold generate_mpx
    simp only [h1, h2, h3, h4, h5, h6, h7, hopen, Bool.not_true, Bool.false_eq_true, if_false,
      if_true, decide_False, Bool.and_false, Bool.true_and]
    rfl

/-- Witness for C16 (amended): with an unopenable sink nothing but the open is
attempted; with only the control channel failing the loop runs unpolled. -/
theorem C16_sink_failure_fatal_witness :
    generate_mpx (Setup.mk true false false false true true true true true true true)
      two_iterations = some (1, [Ev.ao_open_file]) ∧
    generate_mpx setup_ctl_fails two_iterations
      = (mpx_loop false 2 two_iterations).map (fun tr =>
          (0, [Ev.ao_open_live, Ev.src_new, Ev.fm_mpx_open, Ev.init_rds_encoder,
            Ev.open_control_pipe] ++ tr ++ release false)) :=
  ⟨by decide,
   (C16_sink_failure_fatal setup_ctl_fails two_iterations).2 rfl rfl rfl rfl rfl rfl
     (by decide)⟩

/-- C17: whenever `generate_mpx` gets past the streaming loop (it then returns
0), its calls end with `close_control_pipe`, `fm_mpx_close`, `ao_close`,
`ao_shutdown`, `src_delete`, in this order, and none of these is called before:
each release happens exactly once, the control channel and the generator are
closed before the sink, and nothing is written to the sink after its close.
`close_control_pipe` closes the stream exactly when the channel was opened. -/
theorem C17_release_once_in_order (su : Setup) (its : List Iter) (tr : List Ev)
    (h : generate_mpx su its = some (0, tr)) :
    ∃ pre, tr = pre ++ [Ev.close_control_pipe
        (su.control_pipe && (open_control_pipe su.ctl_open su.ctl_fcntl su.ctl_fdopen).2),
        Ev.fm_mpx_close, Ev.ao_close, Ev.ao_shutdown, Ev.src_delete] ∧
      ∀ e ∈ pre, e.is_release = false := by
  simp only [generate_mpx] at h
  by_cases c1 : (su.output_file && su.to_stdout && su.stdout_tty) = true
  · rw [if_pos c1] at h; simp at h
  rw [if_neg c1] at h
  by_cases c2 : (!su.sink_ok) = true
  · rw [if_pos c2] at h; simp at h
  rw [if_neg c2] at h
  by_cases c3 : (!su.src_ok) = true
  · rw [if_pos c3] at h; simp at h
  rw [if_neg c3] at h
  by_cases c4 : (!su.mpx_ok) = true
  · rw [if_pos c4] at h; simp at h
  rw [if_neg c4] at h
  by_cases c5 : (!su.rds_ok) = true
  · rw [if_pos c5] at h; simp at h
  rw [if_neg c5] at h
  obtain ⟨ltr, hl, htr⟩ := Option.map_eq_some'.mp h
  simp only [Prod.mk.injEq, true_and] at htr
  subst htr
  have hflag : (if su.control_pipe = true
      then open_control_pipe su.ctl_open su.ctl_fcntl su.ctl_fdopen else (0, false)).2
      = (su.control_pipe && (open_control_pipe su.ctl_open su.ctl_fcntl su.ctl_fdopen).2) := by
    cases su.control_pipe <;> simp
  refine ⟨_, by rw [hflag]; rfl, ?_⟩
  intro e he
  rcases List.mem_append.mp he with h1 | h1
  · have hall : (([if su.output_file = true then Ev.ao_open_file else Ev.ao_open_live,
        Ev.src_new, Ev.fm_mpx_open, Ev.init_rds_encoder]
        ++ if su.control_pipe = true then [Ev.open_control_pipe] else []).all
        (fun e => !e.is_release)) = true := by
      cases su.control_pipe <;> cases su.output_file <;> rfl
    have := List.all_eq_true.mp hall e h1
    simpa using this
  · exact mpx_loop_no_release _ _ its ltr hl e h1

/-- Witness for C17: a run with an open control channel that plays one block and
then meets the end of input. -/
theorem C17_release_once_in_order_witness :
    ∃ pre, [Ev.ao_open_live, Ev.src_new, Ev.fm_mpx_open, Ev.init_rds_encoder,
        Ev.open_control_pipe,
        Ev.poll_control_pipe, Ev.fm_mpx_get_samples, Ev.src_process, Ev.float2char 431 2,
        Ev.ao_play 1724,
        Ev.poll_control_pipe, Ev.fm_mpx_get_samples,
        Ev.close_control_pipe true, Ev.fm_mpx_close, Ev.ao_close, Ev.ao_shutdown,
        Ev.src_delete]
      = pre ++ [Ev.close_control_pipe (true && (open_control_pipe true true true).2),
        Ev.fm_mpx_close, Ev.ao_close, Ev.ao_shutdown, Ev.src_delete] ∧
      ∀ e ∈ pre, e.is_release = false :=
  C17_release_once_in_order
    (Setup.mk false false false true true true true true true true true) two_iterations _
    (by decide)

/-! ## Decimal numerals -/

theorem digit_val_dec {c : Nat} (h : 48 ≤ c ∧ c ≤ 57) : digit_val 10 c = some (c - 48) := by
  unfold digit_val
  rw [if_pos h, if_pos (by omega)]

theorem scan_digits_append (l rest : List Nat) (hl : AllDigits l) (acc : Nat) :
    scan_digits 10 (l ++ rest) acc = scan_digits 10 rest (dec_val acc l) := by
  induction l generalizing acc with
  | nil => rfl
  | cons c l ih =>
    have hc := hl c (List.mem_cons_self _ _)
    rw [List.cons_append, scan_digits, digit_val_dec hc]
    exact ih (fun d hd => hl d (List.mem_cons_of_mem _ hd)) _

theorem dec_aux_spec (fuel : Nat) :
    ∀ (n : Nat) (acc : List Nat), n < fuel → AllDigits acc →
      ∃ c l, dec_aux fuel n acc = c :: l ++ acc ∧ AllDigits (c :: l) ∧
        dec_val 0 (c :: l) = n := by
  induction fuel with
  | zero => intro n acc h; omega
  | succ fuel ih =>
    intro n acc hn hacc
    by_cases h10 : n < 10
    · refine ⟨n + 48, [], by simp [dec_aux, h10], ?_, by simp [dec_val]⟩
      intro c hc
      simp only [List.mem_singleton] at hc
      omega
    · have hdig : AllDigits ((n % 10 + 48) :: acc) := by
        intro c hc
        rcases List.mem_cons.mp hc with rfl | hc
        · omega
        · exact hacc c hc
      obtain ⟨c, l, he, hd, hv⟩ := ih (n / 10) ((n % 10 + 48) :: acc) (by omega) hdig
      refine ⟨c, l ++ [n % 10 + 48], by simp [dec_aux, h10, he], ?_, ?_⟩
      · intro d hd'
        rcases List.mem_cons.mp hd' with rfl | hd'
        · exact hd d (List.mem_cons_self _ _)
        · rcases List.mem_append.mp hd' with h1 | h1
          · exact hd d (List.mem_cons_of_mem _ h1)
          · simp only [List.mem_singleton] at h1
            omega
      · have : dec_val 0 (c :: (l ++ [n % 10 + 48])) = dec_val 0 (c :: l) * 10 + n % 10 := by
          simp [dec_val, List.foldl_append]
        rw [this, hv]
        omega

theorem dec_spec (n : Nat) :
    ∃ c l, dec n = c :: l ∧ AllDigits (c :: l) ∧ dec_val 0 (c :: l) = n := by
  obtain ⟨c, l, he, hd, hv⟩ := dec_aux_spec (n + 1) n [] (Nat.lt_succ_self n)
    (fun _ h => absurd h (List.not_mem_nil _))
  exact ⟨c, l, by simpa [dec] using he, hd, hv⟩

theorem not_space_of_digit {c : Nat} (h : 48 ≤ c ∧ c ≤ 57) : isspace c = false := by
  simp only [isspace, Bool.or_eq_false_iff, Bool.and_eq_false_iff, decide_eq_false_iff_not]
  exact ⟨by omega, Or.inr (by omega)⟩

/-- In base 10 `strtoul` reads a decimal numeral in full. -/
theorem scan_ul_dec (w n : Nat) (rest : List Nat) (hn : n < 2 ^ w)
    (hrest : ∀ c r, rest = c :: r → digit_val 10 c = none) :
    scan_ul w 10 (dec n ++ rest) = some (n, rest) := by
  obtain ⟨c, l, he, hd, hv⟩ := dec_spec n
  have hc := hd c (List.mem_cons_self _ _)
  have hsd : scan_digits 10 (c :: l ++ rest) 0 = (n, rest) := by
    rw [scan_digits_append _ _ hd, hv]
    cases rest with
    | nil => rfl
    | cons d r => rw [scan_digits, hrest d r rfl]
  have h45 : c ≠ 45 := by omega
  have h43 : c ≠ 43 := by omega
  rw [he]
  simp only [scan_ul, List.cons_append, skip_space, not_space_of_digit hc, scan_sign, h45, h43,
    scan_0x, Bool.false_eq_true, if_false, digit_val_dec hc, Option.isSome_some, if_true,
    show ¬ (10 = 16) by decide]
  have hsd' : scan_digits 10 (c :: l.append rest) 0 = (n, rest) := hsd
  rw [hsd']
  simp [Nat.not_le.mpr hn]

theorem chomp_of_no_nl (x : List Nat) (h : ∀ c ∈ x, c ≠ 10) : chomp x = x := by
  induction x with
  | nil => rfl
  | cons c x ih =>
    cases x with
    | nil => simp [chomp, h c (List.mem_cons_self _ _)]
    | cons d r =>
      rw [chomp, ih (fun e he => h e (List.mem_cons_of_mem _ he))]

theorem chomp_append_nl (x : List Nat) (h : ∀ c ∈ x, c ≠ 10) : chomp (x ++ [10]) = x := by
  induction x with
  | nil => simp [chomp]
  | cons c x ih =>
    cases x with
    | nil => simp [chomp]
    | cons d r =>
      rw [List.cons_append, List.cons_append, chomp, ← List.cons_append,
        ih (fun e he => h e (List.mem_cons_of_mem _ he))]

theorem dec_no_nl (n : Nat) : ∀ c ∈ dec n, c ≠ 10 := by
  obtain ⟨c, l, he, hd, _⟩ := dec_spec n
  intro d hd'
  rw [he] at hd'
  have := hd d hd'
  omega

/-- The two flags `sscanf` reads from the numerals `r,t`. -/
theorem sscanf_two (w r t : Nat) (hw : 32 ≤ w) (hr : r < 2 ^ 32) (ht : t < 2 ^ 32) :
    sscanf_u w 2 (dec r ++ 44 :: dec t) = [r, t] := by
  have hpow : 2 ^ 32 ≤ 2 ^ w := Nat.pow_le_pow_right (by decide) hw
  have h1 : scan_ul w 10 (dec r ++ 44 :: dec t) = some (r, 44 :: dec t) :=
    scan_ul_dec w r _ (by omega) (by
      intro c r' h
      simp only [List.cons.injEq] at h
      rw [← h.1]
      rfl)
  have h2 : scan_ul w 10 (dec t) = some (t, []) := by
    have := scan_ul_dec w t [] (by omega) (by intro c r' h; simp at h)
    simpa using this
  have hr' : r % 2 ^ 32 = r := Nat.mod_eq_of_lt hr
  have ht' : t % 2 ^ 32 = t := Nat.mod_eq_of_lt ht
  simp only [sscanf_u, scan_u, h1, h2, hr', ht', show ¬ (1 = 0) by decide, if_false, if_true]

/-- Within the range of `unsigned int` the RTPF flags are coerced: for r and t
below `2^32`, the line `RTPF r,t` (decimal numerals, with or without the
newline) calls `set_rds_rtplus_flags` once, with r and t where each value above
1 is replaced by 0, so both flags are 0 or 1. -/
theorem rtpf_flags_in_range (w : Nat) (old st : List Nat) (r t : Nat)
    (hold : old.length = CTL_BUFFER_SIZE) (hw : 32 ≤ w) (hr : r < 2 ^ 32) (ht : t < 2 ^ 32)
    (hline : line_read st = [82, 84, 80, 70, 32] ++ (dec r ++ 44 :: dec t) ∨
      line_read st = [82, 84, 80, 70, 32] ++ ((dec r ++ 44 :: dec t) ++ [10])) :
    (poll_control_pipe w old st).map Outcome.res
      = some (1, [Call.set_rds_rtplus_flags (if r > 1 then 0 else r) (if t > 1 then 0 else t)]) ∧
    (if r > 1 then 0 else r) ≤ 1 ∧ (if t > 1 then 0 else t) ≤ 1 := by
  refine ⟨?_, by split <;> omega, by split <;> omega⟩
  have hx : ∀ c ∈ dec r ++ 44 :: dec t, c ≠ 10 := by
    intro c hc
    rcases List.mem_append.mp hc with h | h
    · exact dec_no_nl r c h
    · rcases List.mem_cons.mp h with rfl | h
      · decide
      · exact dec_no_nl t c h
  obtain ⟨c0, l0, he, _, _⟩ := dec_spec r
  have key : ∀ a : List Nat, chomp a = dec r ++ 44 :: dec t → a ≠ [] →
      line_read st = [82, 84, 80, 70, 32] ++ a →
      (poll_control_pipe w old st).map Outcome.res
        = some (1, [Call.set_rds_rtplus_flags (if r > 1 then 0 else r)
            (if t > 1 then 0 else t)]) := by
    intro a ha hne hl
    obtain ⟨c, r', rfl⟩ := List.exists_cons_of_ne_nil hne
    rw [poll_line w hold hl (by simp)]
    refine congrArg some (interp_block4 (by decide) (by decide) ?_)
    rw [ha]
    simp only [sblock4, skw4, skw3, skw2, List.getD_cons_zero, List.getD_cons_succ,
      decide_True, Bool.and_self, if_true, List.drop_succ_cons, List.drop_zero,
      sscanf_two w r t hw hr ht, List.length_cons, List.length_nil]
  rcases hline with h | h
  · exact key _ (chomp_of_no_nl _ hx) (by rw [he]; simp) h
  · exact key _ (chomp_append_nl _ hx) (by simp) h

/-- An instance of the coercion in range: `RTPF 2,0` stores running 0 and
toggle 0. -/
theorem rtpf_flags_in_range_example :
    (poll_control_pipe 64 (fill 88) (bytes "RTPF 2,0\n")).map Outcome.res
      = some (1, [Call.set_rds_rtplus_flags 0 0]) :=
  (rtpf_flags_in_range 64 (fill 88) (bytes "RTPF 2,0\n") 2 0 (by decide) (by decide)
    (by decide) (by decide) (Or.inr (by decide))).1

/-- C8 (the code at the failing inputs): numerals above 1 that reach
`set_rds_rtplus_flags` as 1.  With a 64-bit `unsigned long`, `RTPF 4294967297,0`
stores running 1 and `RTPF 0,4294967297` stores toggle 1, because `%u` narrows
the value to `unsigned int` before the tests `running > 1` and `toggle > 1`.
`RTPF 2,0` stores running 0 and toggle 0. -/
theorem C8_rtpf_flag_wraparound :
    (poll_control_pipe 64 (fill 88) (bytes "RTPF 4294967297,0\n")).map Outcome.res
      = some (1, [Call.set_rds_rtplus_flags 1 0]) ∧
    (poll_control_pipe 64 (fill 88) (bytes "RTPF 0,4294967297\n")).map Outcome.res
      = some (1, [Call.set_rds_rtplus_flags 0 1]) ∧
    sscanf_u 64 2 (bytes "4294967297,0") = [1, 0] ∧
    (poll_control_pipe 64 (fill 88) (bytes "RTPF 2,0\n")).map Outcome.res
      = some (1, [Call.set_rds_rtplus_flags 0 0]) := by
  decide

end Mpxgen
